import Mathlib

/-!
Verification of the per-tick decision engine of the MoltKing Discordia bot
(`discordia_bot.py`): the world model (`GameState`), the pathfinder
(greedy step plus bounded A*), and the phased allocator (`think`).

Each definition is a shallow embedding of the corresponding Python
function; doc comments cite the source symbol.  Machine integers are
modelled as `Int`/`Nat` (all game quantities are small and non-negative;
Python ints are unbounded, so no wrap-around modelling is needed).
-/

set_option maxRecDepth 4000

namespace MoltKing

/-- Global grid coordinate, as the Python tuple `(x, y)`. -/
abbrev Coord := Int × Int

/-- The four movement directions of `Position.neighbors`. -/
inductive Dir where
  | north | south | east | west
deriving DecidableEq

/-- `Position` (`discordia_bot.py` lines 42-67): an integer grid point. -/
structure Position where
  x : Int
  y : Int
deriving DecidableEq

/-- `Position.tuple`. -/
def Position.tuple (p : Position) : Coord := (p.x, p.y)

/-- `Position.dist`: Chebyshev distance `max(abs(dx), abs(dy))`. -/
def Position.dist (p q : Position) : Nat :=
  max (p.x - q.x).natAbs (p.y - q.y).natAbs

/-- One step in a direction, matching the coordinates listed in
`Position.neighbors` (north is `y - 1`, south `y + 1`, east `x + 1`,
west `x - 1`). -/
def Position.step (p : Position) : Dir → Position
  | .north => ⟨p.x, p.y - 1⟩
  | .south => ⟨p.x, p.y + 1⟩
  | .east  => ⟨p.x + 1, p.y⟩
  | .west  => ⟨p.x - 1, p.y⟩

/-- `Position.neighbors`: the four adjacent positions with direction
names, in the fixed source order north, south, east, west. -/
def Position.neighbors (p : Position) : List (Position × Dir) :=
  [(p.step .north, .north), (p.step .south, .south),
   (p.step .east, .east), (p.step .west, .west)]

/-- An own unit record as consumed by `think`: required dict keys
`id`, `x`, `y`, `type`; keys read with `.get` defaults are `Option`s
(`energy` defaults to 0, `energyCapacity` to 500). -/
structure BotUnit where
  id : Nat
  x : Int
  y : Int
  utype : String
  energy : Option Nat
  energyCapacity : Option Nat
deriving DecidableEq

/-- `u.get('energy', 0)`. -/
def BotUnit.energyD (u : BotUnit) : Nat := u.energy.getD 0

/-- `u.get('energyCapacity', 500)`. -/
def BotUnit.capacityD (u : BotUnit) : Nat := u.energyCapacity.getD 500

/-- `Position` of a unit, `Position(u['x'], u['y'])`. -/
def BotUnit.pos (u : BotUnit) : Position := ⟨u.x, u.y⟩

/-- An own structure record: required keys `id`, `x`, `y`, `type`;
optional `energy`, `store` (spawn energy fallback), `cost`
(construction site, default 500) and `targetType`. -/
structure Structure where
  id : Nat
  x : Int
  y : Int
  stype : String
  energy : Option Nat
  store : Option Nat
  cost : Option Nat
  targetType : Option String
deriving DecidableEq

/-- `sp.get('energy', sp.get('store', 0))` (`think`, line 904). -/
def Structure.spawnEnergy (sp : Structure) : Nat :=
  match sp.energy with
  | some e => e
  | none => sp.store.getD 0

/-- A source record from a visible chunk: required `id`, `x`, `y`;
`energy` read with `.get('energy', 0)`. -/
structure Source where
  id : Nat
  x : Int
  y : Int
  energy : Option Nat
deriving DecidableEq

/-- A unit appearing in a visible chunk (own or enemy): required `id`,
`x`, `y`; `ownerId` read with `.get('ownerId')`. -/
structure ChunkUnit where
  id : Nat
  x : Int
  y : Int
  ownerId : Option Nat
deriving DecidableEq

/-- A structure appearing in a visible chunk: required `x`, `y`;
`ownerId` read with `.get('ownerId')`. -/
structure ChunkStructure where
  x : Int
  y : Int
  ownerId : Option Nat
deriving DecidableEq

/-- A visible chunk: every field is read with a `.get` default in
`GameState._build_maps`, hence optional. -/
structure Chunk where
  chunkX : Option Int
  chunkY : Option Int
  terrain : Option (List (List String))
  sources : Option (List Source)
  units : Option (List ChunkUnit)
  structures : Option (List ChunkStructure)
deriving DecidableEq

/-- The `agent` sub-dictionary: `id` read with `.get('id')`, `level`
with `.get('level', 1)`. -/
structure Agent where
  id : Option Nat
  level : Option Nat
deriving DecidableEq

/-- A raw snapshot dictionary as handed to `GameState.__init__`:
every field listed here is read with a `.get` default. -/
structure Raw where
  tick : Option Nat
  agent : Option Agent
  myUnits : Option (List BotUnit)
  myStructures : Option (List Structure)
  visibleChunks : Option (List Chunk)
deriving DecidableEq

/-- Parsed game state (`GameState.__init__`, lines 73-81).  The spatial
indices built by `_build_maps` are recomputed on demand by the
definitions below; the Python code computes the same values once and
stores them. -/
structure GameState where
  tick : Nat
  agentId : Option Nat
  myLevel : Nat
  myUnits : List BotUnit
  myStructures : List Structure
  visibleChunks : List Chunk
deriving DecidableEq

/-- `GameState.__init__`: `data.get('tick', 0)`, `data.get('agent', {})`,
`agent.get('id')`, `agent.get('level', 1)`, `data.get('myUnits', [])`,
`data.get('myStructures', [])`, `data.get('visibleChunks', [])`. -/
def GameState.parse (d : Raw) : GameState :=
  let agent := d.agent.getD ⟨none, none⟩
  { tick := d.tick.getD 0
    agentId := agent.id
    myLevel := agent.level.getD 1
    myUnits := d.myUnits.getD []
    myStructures := d.myStructures.getD []
    visibleChunks := d.visibleChunks.getD [] }

/-- `is_protected = my_level < 6` (line 77). -/
def GameState.isProtected (s : GameState) : Bool := s.myLevel < 6

/-- The global cells of one chunk with their terrain strings:
`gx = chunkX * 25 + lx`, `gy = chunkY * 25 + ly` (lines 104-111). -/
def Chunk.cells (c : Chunk) : List (Coord × String) :=
  let cx := c.chunkX.getD 0
  let cy := c.chunkY.getD 0
  (c.terrain.getD []).enum.flatMap fun rowp =>
    rowp.2.enum.map fun cellp =>
      ((cx * 25 + (cellp.1 : Int), cy * 25 + (rowp.1 : Int)), cellp.2)

/-- Wall set (cells classified `"wall"`, lines 112-113). -/
def GameState.walls (s : GameState) : List Coord :=
  (s.visibleChunks.flatMap Chunk.cells).filterMap
    fun pc => if pc.2 = "wall" then some pc.1 else none

/-- Swamp set (cells classified `"swamp"`, lines 114-115). -/
def GameState.swamps (s : GameState) : List Coord :=
  (s.visibleChunks.flatMap Chunk.cells).filterMap
    fun pc => if pc.2 = "swamp" then some pc.1 else none

/-- Visible sources, collected across chunks (lines 117-121). -/
def GameState.sources (s : GameState) : List Source :=
  s.visibleChunks.flatMap fun c => c.sources.getD []

/-- Enemy units: chunk units whose `ownerId` differs from the agent id
(lines 128-132). -/
def GameState.enemies (s : GameState) : List ChunkUnit :=
  s.visibleChunks.flatMap fun c =>
    (c.units.getD []).filter fun u => u.ownerId ≠ s.agentId

/-- Enemy structures (lines 133-135). -/
def GameState.enemyStructures (s : GameState) : List ChunkStructure :=
  s.visibleChunks.flatMap fun c =>
    (c.structures.getD []).filter fun st => st.ownerId ≠ s.agentId

/-- `all_unit_positions`: positions of own units plus enemy units
(lines 89-92 and 132). -/
def GameState.allUnitPositions (s : GameState) : List Coord :=
  s.myUnits.map (fun u => (u.x, u.y)) ++ s.enemies.map fun u => (u.x, u.y)

/-- Keys of `structure_positions` (lines 95-98). -/
def GameState.structurePosList (s : GameState) : List Coord :=
  s.myStructures.map fun st => (st.x, st.y)

/-- `construction_sites` (lines 138-141). -/
def GameState.constructionSites (s : GameState) : List Structure :=
  s.myStructures.filter fun st => st.stype = "construction_site"

/-- `GameState.is_empty` (lines 153-165): free of walls, own
structures, any unit, and enemy structures. -/
def GameState.isEmpty (s : GameState) (pos : Coord) : Bool :=
  if pos ∈ s.walls then false
  else if pos ∈ s.structurePosList then false
  else if pos ∈ s.allUnitPositions then false
  else if s.enemyStructures.any fun st => (st.x, st.y) = pos then false
  else true

/-- `get_workers` (line 167). -/
def GameState.getWorkers (s : GameState) : List BotUnit :=
  s.myUnits.filter fun u => u.utype = "worker"

/-- `get_soldiers` (line 170). -/
def GameState.getSoldiers (s : GameState) : List BotUnit :=
  s.myUnits.filter fun u => u.utype = "soldier"

/-- `get_spawns` (line 173). -/
def GameState.getSpawns (s : GameState) : List Structure :=
  s.myStructures.filter fun st => st.stype = "spawn"

/-- `get_towers` (line 176). -/
def GameState.getTowers (s : GameState) : List Structure :=
  s.myStructures.filter fun st => st.stype = "tower"

/-- `get_sources_with_energy` (line 179). -/
def GameState.getSourcesWithEnergy (s : GameState) : List Source :=
  s.sources.filter fun src => 0 < src.energy.getD 0

/-- First-match lookup in the `action_buffer` dict `(x, y) -> expiry`. -/
def bufferLookup (buf : List (Coord × Nat)) (pos : Coord) : Option Nat :=
  (buf.find? fun p => p.1 = pos).map fun p => p.2

/-- `Pathfinder.is_passable` (lines 194-207): not a wall, not an own
structure, not reserved this tick, not occupied by any unit, and not
inside a still-active `action_buffer` exclusion window. -/
def isPassable (s : GameState) (buf : List (Coord × Nat))
    (reserved : List Coord) (pos : Coord) : Bool :=
  if pos ∈ s.walls then false
  else if pos ∈ s.structurePosList then false
  else if pos ∈ reserved then false
  else if pos ∈ s.allUnitPositions then false
  else
    match bufferLookup buf pos with
    | some expiry => if s.tick < expiry then false else true
    | none => true

/-- `Pathfinder.get_cost` (lines 209-212): 5 on swamp, else 1. -/
def getCost (s : GameState) (pos : Coord) : Nat :=
  if pos ∈ s.swamps then 5 else 1

/-- A frontier entry of `find_path`: the heap tuple
`(f_score, counter, position, path)`. -/
structure Entry where
  f : Nat
  counter : Nat
  pos : Position
  path : List Position
deriving DecidableEq

/-- Strict heap order on the tuples `(f, counter)`; counters are unique
across pushes, so `heapq` never compares further components. -/
def entryLe (a b : Entry) : Bool :=
  a.f < b.f || (a.f = b.f && a.counter ≤ b.counter)

/-- `heapq.heappop`: removes the entry with the least `(f, counter)`. -/
def popMin : List Entry → Option (Entry × List Entry)
  | [] => none
  | e :: es =>
    match popMin es with
    | none => some (e, [])
    | some (m, rest) =>
      if entryLe e m then some (e, es) else some (m, e :: rest)

/-- First-match lookup in the `g_scores` dict (`None` plays the role of
`float('inf')` for absent keys). -/
def gLookup (g : List (Coord × Nat)) (pos : Coord) : Option Nat :=
  (g.find? fun p => p.1 = pos).map fun p => p.2

/-- The neighbor-expansion step of `find_path` (lines 233-251) for one
neighbor: skip if visited; skip if neither passable nor the goal tile;
otherwise relax the g-score and push `(f, counter, neighbor, path ++ [neighbor])`. -/
def pushNeighbor (s : GameState) (buf : List (Coord × Nat))
    (reserved : List Coord) (goal : Position) (cur : Position)
    (path : List Position) (visited : List Coord)
    (acc : List Entry × List (Coord × Nat) × Nat) (nd : Position × Dir) :
    List Entry × List (Coord × Nat) × Nat :=
  let (openSet, g, ctr) := acc
  let npos := nd.1.tuple
  if npos ∈ visited then acc
  else if ¬ isPassable s buf reserved npos ∧ npos ≠ goal.tuple then acc
  else
    let moveCost := getCost s npos
    match gLookup g cur.tuple with
    | none => acc
    | some gCur =>
      let tentative := gCur + moveCost
      let better : Bool := match gLookup g npos with
        | some gN => tentative < gN
        | none => true
      if better then
        let f := tentative + (nd.1.x - goal.x).natAbs + (nd.1.y - goal.y).natAbs
        (openSet ++ [⟨f, ctr + 1, nd.1, path ++ [nd.1]⟩],
         (npos, tentative) :: g, ctr + 1)
      else acc

/-- All four neighbor expansions of the popped entry (the inner `for`
loop of `find_path`), run after the current position entered `visited`. -/
def expandEntry (s : GameState) (buf : List (Coord × Nat))
    (reserved : List Coord) (goal : Position) (e : Entry)
    (visited : List Coord) (rest : List Entry) (g : List (Coord × Nat))
    (ctr : Nat) : List Entry × List (Coord × Nat) × Nat :=
  e.pos.neighbors.foldl
    (pushNeighbor s buf reserved goal e.pos e.path visited) (rest, g, ctr)

/-- Final state of the `find_path` search loop: the returned value, the
visited set and the remaining frontier at exit. -/
structure AStarResult where
  result : Option (List Position)
  visited : List Coord
  frontier : List Entry
deriving DecidableEq

/-- The `while open_set and len(visited) < budget` loop of `find_path`
(lines 223-253), with the node budget `budget` made an explicit
parameter.  The `fuel` argument only forces structural termination: the
loop strictly shrinks `5 * (budget - len visited) + len openSet` each
iteration, and `fuel` is chosen large enough at the call site
(`aStarLoop_isSome` below proves the `none` case unreachable). -/
def aStarLoop (s : GameState) (buf : List (Coord × Nat))
    (reserved : List Coord) (goal : Position) (budget : Nat) :
    Nat → List Entry → List Coord → List (Coord × Nat) → Nat →
    Option AStarResult
  | 0, _, _, _, _ => none
  | fuel + 1, openSet, visited, g, ctr =>
    if budget ≤ visited.length then some ⟨none, visited, openSet⟩
    else
      match popMin openSet with
      | none => some ⟨none, visited, openSet⟩
      | some (e, rest) =>
        if e.pos.tuple ∈ visited then
          aStarLoop s buf reserved goal budget fuel rest visited g ctr
        else
          let visited' := e.pos.tuple :: visited
          if e.pos.dist goal ≤ 1 then some ⟨some e.path, visited', rest⟩
          else
            let st := expandEntry s buf reserved goal e visited' rest g ctr
            aStarLoop s buf reserved goal budget fuel st.1 visited' st.2.1 st.2.2

/-- `Pathfinder.find_path` (lines 214-253) with its full final search
state, parametrized by the node budget.  The source uses
`budget = max_steps * 10` (see `findPathFull`). -/
def findPathBudget (s : GameState) (buf : List (Coord × Nat))
    (reserved : List Coord) (start goal : Position) (budget : Nat) :
    AStarResult :=
  if start = goal then ⟨some [start], [], []⟩
  else
    (aStarLoop s buf reserved goal budget (5 * budget + 2)
      [⟨0, 0, start, [start]⟩] [] [(start.tuple, 0)] 0).getD ⟨none, [], []⟩

/-- `Pathfinder.find_path` final state: the loop guard is
`len(visited) < max_steps * 10` (line 223). -/
def findPathFull (s : GameState) (buf : List (Coord × Nat))
    (reserved : List Coord) (start goal : Position) (maxSteps : Nat) :
    AStarResult :=
  findPathBudget s buf reserved start goal (maxSteps * 10)

/-- `Pathfinder.find_path`'s return value. -/
def find_path (s : GameState) (buf : List (Coord × Nat))
    (reserved : List Coord) (start goal : Position) (maxSteps : Nat) :
    Option (List Position) :=
  (findPathFull s buf reserved start goal maxSteps).result

/-- The greedy scan of `get_next_move` (lines 261-271): track the best
(strictly smaller) distance seen so far, starting from the unit's own
distance, scanning passable neighbors in source order. -/
def greedyStep (s : GameState) (buf : List (Coord × Nat))
    (reserved : List Coord) (start goal : Position) : Option (Dir × Coord) :=
  (start.neighbors.foldl
    (fun (acc : Option (Dir × Coord) × Nat) nd =>
      if isPassable s buf reserved nd.1.tuple then
        if nd.1.dist goal < acc.2 then (some (nd.2, nd.1.tuple), nd.1.dist goal)
        else acc
      else acc)
    (none, start.dist goal)).1

/-- The direction decoding of the A* fallback (lines 281-291). -/
def decodeDir (start next : Position) : Dir :=
  let dx := next.x - start.x
  let dy := next.y - start.y
  if dx = 1 then .east
  else if dx = -1 then .west
  else if dy = 1 then .south
  else .north

/-- `Pathfinder.get_next_move` (lines 255-296), on the unit's position
`Position(unit['x'], unit['y'])`: `none` when already within Chebyshev
distance 1; otherwise the greedy step; otherwise the first step of a
bounded A* path (`max_steps=30`), re-checked against `is_passable`. -/
def get_next_move (s : GameState) (buf : List (Coord × Nat))
    (reserved : List Coord) (start goal : Position) : Option (Dir × Coord) :=
  if start.dist goal ≤ 1 then none
  else
    match greedyStep s buf reserved start goal with
    | some mv => some mv
    | none =>
      match find_path s buf reserved start goal 30 with
      | some (_ :: next :: _) =>
        if isPassable s buf reserved next.tuple then
          some (decodeDir start next, next.tuple)
        else none
      | _ => none

/-- An action record of the emitted batch (`think`, lines 462-949). -/
inductive Action where
  | move (unitId : Nat) (dir : Dir)
  | transfer (unitId : Nat) (targetId : Nat)
  | harvest (unitId : Nat) (targetId : Nat)
  | build (unitId : Nat) (dir : Dir) (structureType : String)
  | attack (unitId : Nat) (targetId : Nat)
  | spawnUnit (structureId : Nat) (unitType : String)
deriving DecidableEq

/-- The `unitId` field of an action (`spawn` actions carry a
`structureId` instead). -/
def Action.unitId? : Action → Option Nat
  | .move uid _ => some uid
  | .transfer uid _ => some uid
  | .harvest uid _ => some uid
  | .build uid _ _ => some uid
  | .attack uid _ => some uid
  | .spawnUnit _ _ => none

/-- Whether the action is an `attack`. -/
def Action.isAttack : Action → Bool
  | .attack _ _ => true
  | _ => false

/-- Strategy parameters, after `load_strategy_params` merged the file
contents over `DEFAULT_STRATEGY` (lines 23-40): every key is present. -/
structure Strategy where
  worker_cap : Nat
  soldier_cap : Nat
  tower_cap : Nat
  priority_mode : String
  spawn_energy_reserve : Nat
deriving DecidableEq

/-- `DEFAULT_STRATEGY` (lines 23-29). -/
def DEFAULT_STRATEGY : Strategy :=
  { worker_cap := 120, soldier_cap := 100, tower_cap := 30
    priority_mode := "balanced", spawn_energy_reserve := 300 }

/-- The per-tick mutable state threaded through `think`'s phases:
the action list, the `processed` unit-id set, the pathfinder's
`reserved` set, and the engine-lifetime `tower_sites_placed` set. -/
structure TS where
  actions : List Action
  processed : List Nat
  reserved : List Coord
  towerSitesPlaced : List Coord
deriving DecidableEq

/-- The repeated emit-move idiom: `actions.append({move})`,
`pathfinder.reserve(npos)`, `processed.add(id)`. -/
def pushMove (ts : TS) (uid : Nat) (npos : Coord) (d : Dir) : TS :=
  { ts with actions := ts.actions ++ [.move uid d]
            reserved := npos :: ts.reserved
            processed := uid :: ts.processed }

/-- The repeated emit-in-place idiom (transfer/harvest/attack/build):
append the action, mark the unit processed, reserve its own tile. -/
def pushStay (ts : TS) (uid : Nat) (a : Action) (pos : Coord) : TS :=
  { ts with actions := ts.actions ++ [a]
            reserved := pos :: ts.reserved
            processed := uid :: ts.processed }

/-- `actions.append(...)` alone (spawn actions reserve nothing). -/
def pushAction (ts : TS) (a : Action) : TS :=
  { ts with actions := ts.actions ++ [a] }

/-- Python `max(xs, key=f)` over a nonempty list: keeps the current
maximum and replaces it only on a strictly greater key, so the first
maximal element wins. -/
def maxByKey (f : α → Nat) : α → List α → α
  | best, [] => best
  | best, x :: xs => maxByKey f (if f best < f x then x else best) xs

/-- Python `max(xs, key=f)`, `none` on the empty list. -/
def pythonMax (f : α → Nat) : List α → Option α
  | [] => none
  | x :: xs => some (maxByKey f x xs)

/-- Python `min(xs, key=f)` over a nonempty list: first minimal wins. -/
def minByKey (f : α → Nat) : α → List α → α
  | best, [] => best
  | best, x :: xs => minByKey f (if f x < f best then x else best) xs

/-- Python `min(xs, key=f)`, `none` on the empty list. -/
def pythonMin (f : α → Nat) : List α → Option α
  | [] => none
  | x :: xs => some (minByKey f x xs)

/-- Stable insertion for `sortByKey`. -/
def insertSorted (f : α → Nat) (x : α) : List α → List α
  | [] => [x]
  | y :: ys => if f y < f x then y :: insertSorted f x ys else x :: y :: ys

/-- Python `list.sort(key=f)`: a stable ascending sort (any stable sort
computes the same list as Timsort). -/
def sortByKey (f : α → Nat) (l : List α) : List α :=
  l.foldr (insertSorted f) []

/-- `spawn_accessibility` (lines 480-490): the number of empty tiles in
the 8-neighborhood of a spawn. -/
def spawnAccessibility (s : GameState) (sp : Structure) : Nat :=
  (([-1, 0, 1] : List Int).flatMap fun dy =>
    ([-1, 0, 1] : List Int).map fun dx => (dy, dx)).countP fun p =>
      ¬(p.2 = 0 ∧ p.1 = 0) ∧
      (let pos : Coord := (sp.x + p.2, sp.y + p.1)
       pos ∉ s.walls ∧ pos ∉ s.structurePosList ∧ pos ∉ s.allUnitPositions)

/-- The `has_space` scan of the spawning phase (lines 907-918): some
adjacent tile is free of walls, own structures and units. -/
def spawnHasSpace (s : GameState) (sp : Structure) : Bool :=
  (([-1, 0, 1] : List Int).flatMap fun dy =>
    ([-1, 0, 1] : List Int).map fun dx => (dy, dx)).any fun p =>
      ¬(p.2 = 0 ∧ p.1 = 0) ∧
      (let pos : Coord := (sp.x + p.2, sp.y + p.1)
       pos ∉ s.walls ∧ pos ∉ s.structurePosList ∧ pos ∉ s.allUnitPositions)

/-- Phase 1 body for one soldier near the primary spawn (lines
506-539): first passable neighbor strictly increasing distance to the
spawn, else first passable neighbor at all. -/
def clearSpawnSoldier (s : GameState) (buf : List (Coord × Nat))
    (spawnPos : Position) (ts : TS) (u : BotUnit) : TS :=
  let spos := u.pos
  let dts := spos.dist spawnPos
  match spos.neighbors.find? fun nd =>
      isPassable s buf ts.reserved nd.1.tuple ∧ dts < nd.1.dist spawnPos with
  | some nd => pushMove ts u.id nd.1.tuple nd.2
  | none =>
    match spos.neighbors.find? fun nd =>
        isPassable s buf ts.reserved nd.1.tuple with
    | some nd => pushMove ts u.id nd.1.tuple nd.2
    | none => ts

/-- Phase 1, "clear spawn area" (lines 495-539). -/
def phase1 (s : GameState) (buf : List (Coord × Nat))
    (primary : Option Structure) (soldiers : List BotUnit) (ts : TS) : TS :=
  match primary with
  | none => ts
  | some psp =>
    let spawnPos : Position := ⟨psp.x, psp.y⟩
    let near := soldiers.filter fun u => u.pos.dist spawnPos ≤ 2
    let near := sortByKey (fun u => u.pos.dist spawnPos) near
    near.foldl (clearSpawnSoldier s buf spawnPos) ts

/-- Phase 2 body for one construction site (lines 542-565): every
unprocessed energized worker adjacent to the site transfers to it. -/
def fundSite (workers : List BotUnit) (ts : TS)
    (site : Structure) : TS :=
  let siteEnergy := site.energy.getD 0
  let siteCost := site.cost.getD 500
  if siteCost ≤ siteEnergy then ts
  else
    workers.foldl
      (fun ts w =>
        if w.id ∈ ts.processed then ts
        else if w.energyD = 0 then ts
        else if w.pos.dist ⟨site.x, site.y⟩ ≤ 1 then
          pushStay ts w.id (.transfer w.id site.id) w.pos.tuple
        else ts)
      ts

/-- Phase 2, "construction sites" (lines 542-565). -/
def phase2 (workers : List BotUnit)
    (sites : List Structure) (ts : TS) : TS :=
  sites.foldl (fundSite workers) ts

/-- Phase 3, "transfer energy to closest spawn" (lines 567-586). -/
def phase3 (workers : List BotUnit)
    (spawns : List Structure) (ts : TS) : TS :=
  match spawns with
  | [] => ts
  | _ =>
    workers.foldl
      (fun ts w =>
        if w.id ∈ ts.processed then ts
        else if w.energyD = 0 then ts
        else
          match pythonMin (fun (sp : Structure) => w.pos.dist ⟨sp.x, sp.y⟩) spawns with
          | none => ts
          | some csp =>
            if w.pos.dist ⟨csp.x, csp.y⟩ ≤ 1 then
              pushStay ts w.id (.transfer w.id csp.id) w.pos.tuple
            else ts)
      ts

/-- Phase 4, "harvest from sources" (lines 588-607).  The source skips
workers with `energy >= energyCapacity * 0.8`; we use the exact
rational comparison `energy * 5 ≥ capacity * 4`, which can differ from
the Python float comparison only when `energy * 5 = capacity * 4`
exactly (the float product `capacity * 0.8` is then minutely above the
rational value); no claim touches that boundary. -/
def phase4 (workers : List BotUnit)
    (sources : List Source) (ts : TS) : TS :=
  workers.foldl
    (fun ts w =>
      if w.id ∈ ts.processed then ts
      else if w.capacityD * 4 ≤ w.energyD * 5 then ts
      else
        match sources.find? fun src => w.pos.dist ⟨src.x, src.y⟩ ≤ 1 with
        | some src => pushStay ts w.id (.harvest w.id src.id) w.pos.tuple
        | none => ts)
    ts

/-- The best-scoring passable neighbor toward a target (lines 630-641
and 684-695): strictly smaller score replaces, so the first minimal
neighbor in scan order wins; `none` plays `float('inf')`. -/
def bestNeighborToward (s : GameState) (buf : List (Coord × Nat))
    (reserved : List Coord) (wpos target : Position) : Option (Dir × Coord) :=
  (wpos.neighbors.foldl
    (fun (acc : Option (Dir × Coord × Nat)) nd =>
      if isPassable s buf reserved nd.1.tuple then
        let score := nd.1.dist target
        match acc with
        | none => some (nd.2, nd.1.tuple, score)
        | some b => if score < b.2.2 then some (nd.2, nd.1.tuple, score) else acc
      else acc)
    none).map fun b => (b.1, b.2.1)

/-- Phase 5, "clear traffic jam" (lines 609-651): up to 30 unprocessed
empty workers, sorted by distance to the primary spawn, step toward
their nearest source. -/
def phase5 (s : GameState) (buf : List (Coord × Nat))
    (primary : Option Structure) (workers : List BotUnit)
    (spawns : List Structure) (sources : List Source) (ts : TS) : TS :=
  match spawns, sources with
  | [], _ => ts
  | _, [] => ts
  | _, _ =>
    let wes := workers.filter fun w => w.id ∉ ts.processed ∧ w.energyD = 0
    let wes := match primary with
      | some psp => sortByKey (fun (w : BotUnit) => w.pos.dist ⟨psp.x, psp.y⟩) wes
      | none => wes
    (wes.take 30).foldl
      (fun (ts : TS) (w : BotUnit) =>
        match pythonMin (fun (src : Source) => w.pos.dist ⟨src.x, src.y⟩) sources with
        | none => ts
        | some csrc =>
          match bestNeighborToward s buf ts.reserved w.pos ⟨csrc.x, csrc.y⟩ with
          | some dc => pushMove ts w.id dc.2 dc.1
          | none => ts)
      ts

/-- Phase 6, "workers with energy move toward accessible spawn"
(lines 653-705). -/
def phase6 (s : GameState) (buf : List (Coord × Nat))
    (primary : Option Structure) (workers : List BotUnit)
    (sites : List Structure) (ts : TS) : TS :=
  if primary.isSome ∨ sites ≠ [] then
    let wwe := workers.filter fun w => w.id ∉ ts.processed ∧ 50 < w.energyD
    let wwe := match primary with
      | some psp => sortByKey (fun (w : BotUnit) => w.pos.dist ⟨psp.x, psp.y⟩) wwe
      | none => wwe
    (wwe.take 30).foldl
      (fun (ts : TS) (w : BotUnit) =>
        let target? : Option Position := match primary with
          | some psp => some ⟨psp.x, psp.y⟩
          | none =>
            let needing := sites.filter fun st =>
              st.energy.getD 0 < st.cost.getD 500
            match pythonMin (fun (st : Structure) => w.pos.dist ⟨st.x, st.y⟩) needing with
            | some cs => some ⟨cs.x, cs.y⟩
            | none => none
        match target? with
        | none => ts
        | some target =>
          match bestNeighborToward s buf ts.reserved w.pos target with
          | some dc => pushMove ts w.id dc.2 dc.1
          | none => ts)
      ts
  else ts

/-- Phase 7, "remaining workers try any available move" (lines
707-723). -/
def phase7 (s : GameState) (buf : List (Coord × Nat))
    (workers : List BotUnit) (ts : TS) : TS :=
  let remaining := workers.filter fun w => w.id ∉ ts.processed
  (remaining.take 20).foldl
    (fun (ts : TS) (w : BotUnit) =>
      match w.pos.neighbors.find? fun nd =>
          isPassable s buf ts.reserved nd.1.tuple with
      | some nd => pushMove ts w.id nd.1.tuple nd.2
      | none => ts)
    ts

/-- Python `range(lo, hi + 1)` over `Int`. -/
def intRange (lo hi : Int) : List Int :=
  (List.range (hi - lo + 1).toNat).map fun i => lo + (i : Int)

/-- The candidate tower ring positions around one spawn (lines
737-751): offsets `-4..4`, excluding the `|dx| < 2 and |dy| < 2` core,
that are empty, not in `tower_sites_placed`, and hold no tower or
construction site. -/
def towerPositionsFor (s : GameState) (towers sites : List Structure)
    (placed : List Coord) (sp : Structure) : List Coord :=
  ((intRange (-4) 4).flatMap fun dx =>
    (intRange (-4) 4).map fun dy => (dx, dy)).filterMap fun d =>
    if d.1.natAbs < 2 ∧ d.2.natAbs < 2 then none
    else
      let pos : Coord := (sp.x + d.1, sp.y + d.2)
      if s.isEmpty pos ∧ pos ∉ placed ∧
          ¬((towers ++ sites).any fun t => t.x = pos.1 ∧ t.y = pos.2) then
        some pos
      else none

/-- The builder loop of the tower phase (lines 757-805): the `builders`
list is **not** re-filtered against `processed` inside the per-spawn
loop; for each builder, build toward the nearest ring tile if
cardinally adjacent, else step toward it via the pathfinder. -/
def towerBuilders (s : GameState) (buf : List (Coord × Nat)) :
    List BotUnit → List Coord → TS → TS
  | [], _, ts => ts
  | w :: ws, tps, ts =>
    match tps with
    | [] => ts
    | t0 :: trest =>
      let wpos := w.pos
      let tp := minByKey (fun (p : Coord) => wpos.dist ⟨p.1, p.2⟩) t0 trest
      let tpPos : Position := ⟨tp.1, tp.2⟩
      if wpos.dist tpPos ≤ 1 then
        let dx := tpPos.x - wpos.x
        let dy := tpPos.y - wpos.y
        match (if dx = 1 then some Dir.east else if dx = -1 then some Dir.west
               else if dy = 1 then some Dir.south
               else if dy = -1 then some Dir.north else none) with
        | some d =>
          let ts' := { pushStay ts w.id (.build w.id d "tower") wpos.tuple with
                       towerSitesPlaced := tp :: ts.towerSitesPlaced }
          towerBuilders s buf ws (tps.erase tp) ts'
        | none => towerBuilders s buf ws tps ts
      else
        match get_next_move s buf ts.reserved wpos tpPos with
        | some dc => towerBuilders s buf ws tps (pushMove ts w.id dc.2 dc.1)
        | none => towerBuilders s buf ws tps ts

/-- Phase 8, "build towers" (lines 725-805).  `builders` is computed
once from the `processed` set at phase entry and reused for every
spawn. -/
def phase8 (s : GameState) (buf : List (Coord × Nat)) (towerCap : Nat)
    (workers : List BotUnit) (spawns towers sites : List Structure)
    (ts : TS) : TS :=
  match spawns with
  | [] => ts
  | _ =>
    if towers.length +
        (sites.filter fun st => st.targetType = some "tower").length
        < towerCap then
      let builders := workers.filter fun w =>
        w.id ∉ ts.processed ∧ 100 ≤ w.energyD
      spawns.foldl
        (fun ts sp =>
          let tps := towerPositionsFor s towers sites ts.towerSitesPlaced sp
          if tps = [] ∨ builders = [] then ts
          else towerBuilders s buf (builders.take 5) tps ts)
        ts
    else ts

/-- Phase 9 body for one soldier (lines 808-891): attack an adjacent
enemy unless protected; else evacuate if within 2 of the nearest spawn;
else chase an enemy within 15; else return when farther than 10 from
the nearest spawn. -/
def soldierStep (s : GameState) (buf : List (Coord × Nat))
    (spawns : List Structure) (foes : List ChunkUnit) (ts : TS)
    (u : BotUnit) : TS :=
  if u.id ∈ ts.processed then ts
  else
    let spos := u.pos
    let atk := if s.isProtected then none
               else foes.find? fun e => spos.dist ⟨e.x, e.y⟩ ≤ 1
    match atk with
    | some e => pushStay ts u.id (.attack u.id e.id) spos.tuple
    | none =>
      let nearMove : Option (Dir × Coord) :=
        match pythonMin (fun (sp : Structure) => spos.dist ⟨sp.x, sp.y⟩) spawns with
        | none => none
        | some csp =>
          let spPos : Position := ⟨csp.x, csp.y⟩
          let d := spos.dist spPos
          if d ≤ 2 then
            (spos.neighbors.find? fun nd =>
              isPassable s buf ts.reserved nd.1.tuple ∧
                d < nd.1.dist spPos).map fun nd => (nd.2, nd.1.tuple)
          else none
      match nearMove with
      | some dc => pushMove ts u.id dc.2 dc.1
      | none =>
        let chase : Option (Dir × Coord) :=
          match pythonMin (fun (e : ChunkUnit) => spos.dist ⟨e.x, e.y⟩) foes with
          | none => none
          | some ce =>
            if spos.dist ⟨ce.x, ce.y⟩ ≤ 15 then
              get_next_move s buf ts.reserved spos ⟨ce.x, ce.y⟩
            else none
        match chase with
        | some dc => pushMove ts u.id dc.2 dc.1
        | none =>
          match pythonMin (fun (sp : Structure) => spos.dist ⟨sp.x, sp.y⟩) spawns with
          | none => ts
          | some csp =>
            if 10 < spos.dist ⟨csp.x, csp.y⟩ then
              match get_next_move s buf ts.reserved spos ⟨csp.x, csp.y⟩ with
              | some dc => pushMove ts u.id dc.2 dc.1
              | none => ts
            else ts

/-- Phase 9, "soldiers" (lines 807-891). -/
def phase9 (s : GameState) (buf : List (Coord × Nat))
    (spawns : List Structure) (soldiers : List BotUnit) (ts : TS) : TS :=
  soldiers.foldl (soldierStep s buf spawns s.enemies) ts

/-- The per-spawn decision chain of the spawning phase (lines
923-947): `economy`, `military`, `defense`, and the `else` branch for
`balanced` and every other mode. -/
def spawnDecision (strategy : Strategy) (numW numS : Nat)
    (sp : Structure) : List Action :=
  let e := sp.spawnEnergy
  if strategy.priority_mode = "economy" then
    if numW < strategy.worker_cap ∧ 100 ≤ e then [.spawnUnit sp.id "worker"]
    else if numS < strategy.soldier_cap / 2 ∧
        strategy.spawn_energy_reserve ≤ e then [.spawnUnit sp.id "soldier"]
    else []
  else if strategy.priority_mode = "military" then
    if numS < strategy.soldier_cap ∧ 150 ≤ e then [.spawnUnit sp.id "soldier"]
    else if numW < strategy.worker_cap / 2 ∧
        strategy.spawn_energy_reserve ≤ e then [.spawnUnit sp.id "worker"]
    else []
  else if strategy.priority_mode = "defense" then
    if numS < strategy.soldier_cap ∧
        strategy.spawn_energy_reserve + 150 ≤ e then
      [.spawnUnit sp.id "soldier"]
    else if numW < strategy.worker_cap ∧
        strategy.spawn_energy_reserve + 100 ≤ e then
      [.spawnUnit sp.id "worker"]
    else []
  else
    if numW < strategy.worker_cap ∧ 100 ≤ e then [.spawnUnit sp.id "worker"]
    else if numS < strategy.soldier_cap ∧
        strategy.spawn_energy_reserve ≤ e then [.spawnUnit sp.id "soldier"]
    else []

/-- Phase 10, "spawning" (lines 893-947): skip spawns with no empty
adjacent tile, then run the decision chain. -/
def phase10 (s : GameState) (strategy : Strategy) (numW numS : Nat)
    (spawns : List Structure) (ts : TS) : TS :=
  spawns.foldl
    (fun ts sp =>
      if spawnHasSpace s sp then
        (spawnDecision strategy numW numS sp).foldl pushAction ts
      else ts)
    ts

/-- `DiscordiaBot.think` (lines 462-949): the full per-tick allocation
pass.  `buf` is the bot's `action_buffer`, `placed0` its
`tower_sites_placed` at tick start; the loaded strategy parameters are
passed in (`load_strategy_params` reads them from a file). -/
def think (s : GameState) (strategy : Strategy) (buf : List (Coord × Nat))
    (placed0 : List Coord) : TS :=
  let ts0 : TS := ⟨[], [], [], placed0⟩
  let workers := s.getWorkers
  let soldiers := s.getSoldiers
  let spawns := s.getSpawns
  let sources := s.getSourcesWithEnergy
  let towers := s.getTowers
  let sites := s.constructionSites
  let primary := pythonMax (spawnAccessibility s) spawns
  let ts1 := phase1 s buf primary soldiers ts0
  let ts2 := phase2 workers sites ts1
  let ts3 := phase3 workers spawns ts2
  let ts4 := phase4 workers sources ts3
  let ts5 := phase5 s buf primary workers spawns sources ts4
  let ts6 := phase6 s buf primary workers sites ts5
  let ts7 := phase7 s buf workers ts6
  let ts8 := phase8 s buf strategy.tower_cap workers spawns towers sites ts7
  let ts9 := phase9 s buf spawns soldiers ts8
  phase10 s strategy workers.length soldiers.length spawns ts9

/-! ## Concrete snapshots used as witnesses and counterexamples -/

/-- A snapshot with no terrain, units or structures at all. -/
def openFieldState : GameState := ⟨0, none, 1, [], [], []⟩

/-- One terrain row with walls at local x = 9 and x = 11. -/
def c1row : List String :=
  (List.replicate 9 "open") ++ ["wall", "open", "wall"]

/-- A raw snapshot with two own spawns at (10, 6) and (10, 15), one
worker with 100 energy at (10, 10), and walls on the worker's east and
west flanks and around the two buildable ring tiles (10, 9) and
(10, 11). -/
def c1raw : Raw :=
  { tick := none
    agent := some ⟨some 7, none⟩
    myUnits := some [⟨1, 10, 10, "worker", some 100, none⟩]
    myStructures := some
      [⟨2, 10, 6, "spawn", some 0, none, none, none⟩,
       ⟨3, 10, 15, "spawn", some 0, none, none, none⟩]
    visibleChunks := some
      [{ chunkX := some 0, chunkY := some 0
         terrain := some ((List.replicate 9 []) ++ [c1row, c1row, c1row])
         sources := none, units := none, structures := none }] }

/-- An `action_buffer` blocking the worker's north and south neighbors
for passability (they stay buildable: `is_empty` ignores the buffer). -/
def c1buf : List (Coord × Nat) := [((10, 9), 1000), ((10, 11), 1000)]

/-- A snapshot whose tick emits a genuine move: one spawn at (0, 0),
one empty worker at (5, 5) and a source at (8, 5), so the
traffic-clearing phase steps the worker east toward the source. -/
def c2raw : Raw :=
  { tick := none
    agent := some ⟨some 7, none⟩
    myUnits := some [⟨1, 5, 5, "worker", some 0, none⟩]
    myStructures := some [⟨2, 0, 0, "spawn", some 0, none, none, none⟩]
    visibleChunks := some
      [{ chunkX := some 0, chunkY := some 0
         terrain := none
         sources := some [⟨9, 8, 5, some 100⟩]
         units := none, structures := none }] }

/-- Whether some unit id occurs twice in a list. -/
def hasDupIds : List Nat → Bool
  | [] => false
  | x :: xs => x ∈ xs || hasDupIds xs

/-- The raw snapshot with every optional field absent. -/
def emptyRaw : Raw := ⟨none, none, none, none, none⟩

/-- A protected snapshot: agent level 3, one own soldier at (0, 0)
adjacent to an enemy unit at (1, 0). -/
def c7raw : Raw :=
  { tick := none
    agent := some ⟨some 7, some 3⟩
    myUnits := some [⟨1, 0, 0, "soldier", none, none⟩]
    myStructures := none
    visibleChunks := some
      [{ chunkX := none, chunkY := none, terrain := none, sources := none
         units := some [⟨2, 1, 0, some 9⟩], structures := none }] }

/-- A strategy whose `priority_mode` matches no known mode. -/
def turtleStrategy : Strategy :=
  { DEFAULT_STRATEGY with priority_mode := "turtle" }

/-- The claim's description of balanced spawning, in the spec's words:
for each own spawn with an empty adjacent tile, spawn a worker if
workers are under the worker cap and the spawn holds at least 100
energy, else a soldier if soldiers are under the soldier cap and the
spawn holds at least the configured energy reserve. -/
def balancedSpawnSpec (s : GameState)
    (workerCap soldierCap reserve numW numS : Nat) (sp : Structure) :
    List Action :=
  if spawnHasSpace s sp then
    if numW < workerCap ∧ 100 ≤ sp.spawnEnergy then
      [.spawnUnit sp.id "worker"]
    else if numS < soldierCap ∧ reserve ≤ sp.spawnEnergy then
      [.spawnUnit sp.id "soldier"]
    else []
  else []

/-- The position recorded in the snapshot for a unit id (first match,
as a Python dict lookup over `my_units`). -/
def posOfUnit (s : GameState) (uid : Nat) : Option Position :=
  (s.myUnits.find? fun u => u.id = uid).map fun u => ⟨u.x, u.y⟩

/-- The tile an action reserves, per the `pathfinder.reserve` calls in
`think`: a move reserves its destination (the unit's snapshot position
shifted by the direction), a transfer/harvest/build/attack reserves the
unit's standing position, a spawn reserves nothing. -/
def reservationOf (s : GameState) (a : Action) : Option Coord :=
  match a with
  | .move uid d => (posOfUnit s uid).map fun p => (p.step d).tuple
  | .transfer uid _ => (posOfUnit s uid).map Position.tuple
  | .harvest uid _ => (posOfUnit s uid).map Position.tuple
  | .build uid _ _ => (posOfUnit s uid).map Position.tuple
  | .attack uid _ => (posOfUnit s uid).map Position.tuple
  | .spawnUnit _ _ => none

/-- Accumulate one action's reservation. -/
def resvStep (s : GameState) (r : List Coord) (a : Action) : List Coord :=
  match reservationOf s a with
  | some c => c :: r
  | none => r

/-- All tiles reserved by a list of actions, on top of `r0`. -/
def resvAfter (s : GameState) (acts : List Action) (r0 : List Coord) :
    List Coord :=
  acts.foldl (resvStep s) r0

/-- The claim's per-move condition: the destination tile (the unit's
snapshot position shifted one step in the move's direction) is not a
wall, not a structure position, not occupied by any unit, and not among
the tiles already reserved. -/
def checkMove1 (s : GameState) (resv : List Coord) (a : Action) : Bool :=
  match a with
  | .move uid d =>
    match posOfUnit s uid with
    | some p =>
      let dest := (p.step d).tuple
      !(dest ∈ s.walls) && !(dest ∈ s.structurePosList) &&
        !(dest ∈ s.allUnitPositions) && !(dest ∈ resv)
    | none => false
  | _ => true

/-- Check every move action of a batch against the snapshot and the
reservations of the actions before it. -/
def checkMoves (s : GameState) : List Action → List Coord → Bool
  | [], _ => true
  | a :: rest, resv =>
    checkMove1 s resv a && checkMoves s rest (resvStep s resv a)

/-- The fold body of `greedyStep`. -/
def greedyF (s : GameState) (buf : List (Coord × Nat))
    (reserved : List Coord) (goal : Position)
    (acc : Option (Dir × Coord) × Nat) (nd : Position × Dir) :
    Option (Dir × Coord) × Nat :=
  if isPassable s buf reserved nd.1.tuple then
    if nd.1.dist goal < acc.2 then (some (nd.2, nd.1.tuple), nd.1.dist goal)
    else acc
  else acc

/-- A claim-side rendering of the spec sentence: scan the four
neighbors in fixed order north, south, east, west and take the first
passable one that strictly reduces Chebyshev distance to the goal. -/
def firstImprovingNeighbor (s : GameState) (buf : List (Coord × Nat))
    (reserved : List Coord) (start goal : Position) : Option (Dir × Coord) :=
  (start.neighbors.find? fun nd =>
    isPassable s buf reserved nd.1.tuple ∧
      nd.1.dist goal < start.dist goal).map fun nd => (nd.2, nd.1.tuple)

/-- The spec's "bounded A* yields a usable first step": the fallback
search (`max_steps = 30`) returns a path of length at least two whose
second element is still passable. -/
def astarUsableFirstStep (s : GameState) (buf : List (Coord × Nat))
    (reserved : List Coord) (start goal : Position) : Prop :=
  ∃ p0 next rest,
    find_path s buf reserved start goal 30 = some (p0 :: next :: rest) ∧
    isPassable s buf reserved next.tuple = true

/-- One 4-directional step. -/
def AdjStep (a b : Position) : Prop := ∃ d : Dir, b = a.step d

/-- The invariant of every frontier entry: its path starts at the
search start, ends at the entry's position, moves one cardinal step at
a time, and every position after the first was passable at search time
or is the goal tile. -/
def EntryInv (s : GameState) (buf : List (Coord × Nat))
    (reserved : List Coord) (start goal : Position) (e : Entry) : Prop :=
  e.path.head? = some start ∧ e.path.getLast? = some e.pos ∧
  List.Chain' AdjStep e.path ∧
  ∀ p ∈ e.path.tail, isPassable s buf reserved p.tuple = true ∨ p = goal

/-- The running cost totals along a path: partial sums of the per-cell
costs (`get_cost`: 1 open, 5 swamp). -/
def cumCosts (s : GameState) (path : List Position) : List Nat :=
  (path.map fun p => getCost s p.tuple).scanl (· + ·) 0

/-- No action in the batch so far is an attack. -/
def AttackFree (ts : TS) : Prop := ∀ a ∈ ts.actions, a.isAttack = false

/-- The C2 invariant carried across the phases: every move so far met
the claim's conditions against the reservations before it, and every
reservation of an emitted action is in the pathfinder's reserved set. -/
def MInv (s : GameState) (ts : TS) : Prop :=
  checkMoves s ts.actions [] = true ∧
  ∀ c ∈ resvAfter s ts.actions [], c ∈ ts.reserved

/-- The fold body of `bestNeighborToward`, named for reasoning. -/
def bnF (s : GameState) (buf : List (Coord × Nat)) (reserved : List Coord)
    (target : Position) (acc : Option (Dir × Coord × Nat))
    (nd : Position × Dir) : Option (Dir × Coord × Nat) :=
  if isPassable s buf reserved nd.1.tuple then
    let score := nd.1.dist target
    match acc with
    | none => some (nd.2, nd.1.tuple, score)
    | some b => if score < b.2.2 then some (nd.2, nd.1.tuple, score) else acc
  else acc

/-! ## Basic geometric lemmas -/

/-- Every entry of `p.neighbors` is the step of `p` in its direction. -/
theorem neighbors_step {p : Position} {nd : Position × Dir}
    (h : nd ∈ p.neighbors) : nd.1 = p.step nd.2 := by
  simp only [Position.neighbors, List.mem_cons, List.not_mem_nil,
    or_false] at h
  rcases h with rfl | rfl | rfl | rfl <;> rfl

/-- A single cardinal step lowers Chebyshev distance by at most 1. -/
theorem dist_step_ge (p q : Position) (d : Dir) :
    p.dist q ≤ (p.step d).dist q + 1 := by
  cases d <;> simp [Position.dist, Position.step, Nat.max_def] <;>
    split_ifs <;> omega

/-- Chebyshev distance of a position to itself is zero. -/
theorem dist_self (p : Position) : p.dist p = 0 := by
  simp [Position.dist]

/-- `Position.tuple` is injective. -/
theorem tuple_inj {p q : Position} (h : p.tuple = q.tuple) : p = q := by
  cases p; cases q
  simp only [Position.tuple, Prod.mk.injEq] at h
  simp [h.1, h.2]

/-! ## The greedy step scans first-improving-wins -/

theorem greedyStep_eq_foldl (s : GameState) (buf : List (Coord × Nat))
    (reserved : List Coord) (start goal : Position) :
    greedyStep s buf reserved start goal =
      (start.neighbors.foldl (greedyF s buf reserved goal)
        (none, start.dist goal)).1 := rfl

/-- Once every remaining neighbor is at least as far as the running
best, the fold no longer changes. -/
theorem greedyFold_frozen (s : GameState) (buf : List (Coord × Nat))
    (reserved : List Coord) (goal : Position)
    (l : List (Position × Dir)) (acc : Option (Dir × Coord) × Nat)
    (h : ∀ nd ∈ l, acc.2 ≤ nd.1.dist goal) :
    l.foldl (greedyF s buf reserved goal) acc = acc := by
  induction l with
  | nil => rfl
  | cons x xs ih =>
    have hx := h x (List.mem_cons_self x xs)
    have hstep : greedyF s buf reserved goal acc x = acc := by
      unfold greedyF
      split_ifs with h1 h2
      · omega
      · rfl
      · rfl
    rw [List.foldl_cons, hstep]
    exact ih fun nd hnd => h nd (List.mem_cons_of_mem x hnd)

/-- If the first passable strictly-improving neighbor in scan order is
`nd`, and no neighbor can improve by more than one (true of cardinal
steps), the greedy fold returns exactly `nd`. -/
theorem greedyFold_first (s : GameState) (buf : List (Coord × Nat))
    (reserved : List Coord) (goal : Position)
    (l : List (Position × Dir)) (D : Nat)
    (hD : ∀ nd ∈ l, D ≤ nd.1.dist goal + 1) (nd : Position × Dir)
    (hfind : l.find? (fun nd => isPassable s buf reserved nd.1.tuple ∧
        nd.1.dist goal < D) = some nd) :
    (l.foldl (greedyF s buf reserved goal) (none, D)).1 =
      some (nd.2, nd.1.tuple) := by
  induction l with
  | nil => simp at hfind
  | cons x xs ih =>
    by_cases hx : isPassable s buf reserved x.1.tuple = true ∧
        x.1.dist goal < D
    · rw [List.find?_cons_of_pos _ (by simpa using hx)] at hfind
      have hnd : x = nd := by
        simpa using hfind
      subst hnd
      have hstep : greedyF s buf reserved goal (none, D) x =
          (some (x.2, x.1.tuple), x.1.dist goal) := by
        unfold greedyF
        rw [if_pos hx.1, if_pos hx.2]
      have hfz : List.foldl (greedyF s buf reserved goal)
          (some (x.2, x.1.tuple), x.1.dist goal) xs =
          (some (x.2, x.1.tuple), x.1.dist goal) := by
        apply greedyFold_frozen
        intro nd' hnd'
        have h1 := hD nd' (List.mem_cons_of_mem x hnd')
        have h2 := hx.2
        simp only
        omega
      rw [List.foldl_cons, hstep, hfz]
    · rw [List.find?_cons_of_neg _ (by simpa using hx)] at hfind
      have hstep : greedyF s buf reserved goal (none, D) x = (none, D) := by
        unfold greedyF
        split_ifs with h1 h2
        · exact absurd ⟨h1, h2⟩ hx
        · rfl
        · rfl
      rw [List.foldl_cons, hstep]
      exact ih (fun nd' hnd' => hD nd' (List.mem_cons_of_mem x hnd')) hfind

/-- C3: for a unit strictly beyond Chebyshev distance 1 of its goal,
whenever some passable neighbor strictly improves the Chebyshev
distance, `get_next_move` returns exactly the first such neighbor in
the fixed scan order north, south, east, west — a later neighbor is
never preferred over an earlier strictly-improving one. -/
theorem c3_greedy_first_found (s : GameState) (buf : List (Coord × Nat))
    (reserved : List Coord) (start goal : Position)
    (mv : Dir × Coord) (h1 : 1 < start.dist goal)
    (h2 : firstImprovingNeighbor s buf reserved start goal = some mv) :
    get_next_move s buf reserved start goal = some mv := by
  unfold firstImprovingNeighbor at h2
  rcases Option.map_eq_some'.mp h2 with ⟨nd, hfind, rfl⟩
  have hgreedy : greedyStep s buf reserved start goal =
      some (nd.2, nd.1.tuple) := by
    rw [greedyStep_eq_foldl]
    refine greedyFold_first s buf reserved goal _ _ ?_ nd hfind
    intro nd' hnd'
    have := dist_step_ge start goal nd'.2
    rw [← neighbors_step hnd'] at this
    exact this
  unfold get_next_move
  rw [if_neg (by omega), hgreedy]


/-! ## C6: when `get_next_move` yields no move -/

/-- Once the greedy fold holds a candidate it never returns to
`none`. -/
theorem greedyFold_isSome (s : GameState) (buf : List (Coord × Nat))
    (reserved : List Coord) (goal : Position)
    (l : List (Position × Dir)) (acc : Option (Dir × Coord) × Nat)
    (h : acc.1.isSome) :
    ((l.foldl (greedyF s buf reserved goal) acc).1).isSome := by
  induction l generalizing acc with
  | nil => exact h
  | cons x xs ih =>
    rw [List.foldl_cons]
    apply ih
    unfold greedyF
    split_ifs <;> simp_all

/-- The greedy fold yields `none` exactly when no scanned neighbor is
both passable and strictly closer than the initial distance. -/
theorem greedyFold_none_iff (s : GameState) (buf : List (Coord × Nat))
    (reserved : List Coord) (goal : Position)
    (l : List (Position × Dir)) (D : Nat) :
    (l.foldl (greedyF s buf reserved goal) (none, D)).1 = none ↔
      ∀ nd ∈ l, ¬(isPassable s buf reserved nd.1.tuple = true ∧
        nd.1.dist goal < D) := by
  induction l with
  | nil => simp
  | cons x xs ih =>
    by_cases hx : isPassable s buf reserved x.1.tuple = true ∧
        x.1.dist goal < D
    · have hstep : greedyF s buf reserved goal (none, D) x =
          (some (x.2, x.1.tuple), x.1.dist goal) := by
        unfold greedyF
        rw [if_pos hx.1, if_pos hx.2]
      rw [List.foldl_cons, hstep]
      constructor
      · intro hnone
        have := greedyFold_isSome s buf reserved goal xs
          (some (x.2, x.1.tuple), x.1.dist goal) (by simp)
        rw [hnone] at this
        cases this
      · intro hall
        exact absurd hx (hall x (List.mem_cons_self x xs))
    · have hstep : greedyF s buf reserved goal (none, D) x = (none, D) := by
        unfold greedyF
        split_ifs with h1 h2
        · exact absurd ⟨h1, h2⟩ hx
        · rfl
        · rfl
      rw [List.foldl_cons, hstep, ih]
      constructor
      · intro hall nd hnd
        rcases List.mem_cons.mp hnd with rfl | hnd'
        · exact hx
        · exact hall nd hnd'
      · intro hall nd hnd
        exact hall nd (List.mem_cons_of_mem x hnd)

/-- `greedyStep` yields `none` exactly when no neighbor is passable and
strictly closer to the goal. -/
theorem greedyStep_eq_none_iff (s : GameState) (buf : List (Coord × Nat))
    (reserved : List Coord) (start goal : Position) :
    greedyStep s buf reserved start goal = none ↔
      ∀ nd ∈ start.neighbors,
        ¬(isPassable s buf reserved nd.1.tuple = true ∧
          nd.1.dist goal < start.dist goal) := by
  rw [greedyStep_eq_foldl]
  exact greedyFold_none_iff s buf reserved goal _ _

/-- C6: `get_next_move` returns no move exactly when the unit is
already within Chebyshev distance 1 of the goal, or no passable
neighbor strictly reduces the Chebyshev distance and the bounded A*
fallback fails to yield a usable first step. -/
theorem c6_none_iff (s : GameState) (buf : List (Coord × Nat))
    (reserved : List Coord) (start goal : Position) :
    get_next_move s buf reserved start goal = none ↔
      (start.dist goal ≤ 1 ∨
        ((∀ nd ∈ start.neighbors,
            ¬(isPassable s buf reserved nd.1.tuple = true ∧
              nd.1.dist goal < start.dist goal)) ∧
          ¬ astarUsableFirstStep s buf reserved start goal)) := by
  by_cases h1 : start.dist goal ≤ 1
  · simp [get_next_move, h1]
  · rcases hg : greedyStep s buf reserved start goal with _ | mv
    · have hnog := (greedyStep_eq_none_iff s buf reserved start goal).mp hg
      have hnoUse : find_path s buf reserved start goal 30 = none ∨
          (∃ p0, find_path s buf reserved start goal 30 = some [p0]) ∨
          find_path s buf reserved start goal 30 = some [] ∨
          (∃ p0 next rest,
            find_path s buf reserved start goal 30 = some (p0 :: next :: rest)) := by
        rcases find_path s buf reserved start goal 30 with _ | (_ | ⟨p0, _ | ⟨nx, rest⟩⟩)
        · exact Or.inl rfl
        · exact Or.inr (Or.inr (Or.inl rfl))
        · exact Or.inr (Or.inl ⟨p0, rfl⟩)
        · exact Or.inr (Or.inr (Or.inr ⟨p0, nx, rest, rfl⟩))
      rcases hnoUse with hp | ⟨p0, hp⟩ | hp | ⟨p0, next, rest, hp⟩
      · simp only [get_next_move, if_neg h1, hg, hp]
        constructor
        · intro _
          refine Or.inr ⟨hnog, ?_⟩
          rintro ⟨q0, nx, rs, hfp, -⟩
          rw [hp] at hfp
          cases hfp
        · intro _
          trivial
      · simp only [get_next_move, if_neg h1, hg, hp]
        constructor
        · intro _
          refine Or.inr ⟨hnog, ?_⟩
          rintro ⟨q0, nx, rs, hfp, -⟩
          rw [hp] at hfp
          cases hfp
        · intro _
          trivial
      · simp only [get_next_move, if_neg h1, hg, hp]
        constructor
        · intro _
          refine Or.inr ⟨hnog, ?_⟩
          rintro ⟨q0, nx, rs, hfp, -⟩
          rw [hp] at hfp
          cases hfp
        · intro _
          trivial
      · by_cases hpass : isPassable s buf reserved next.tuple = true
        · simp only [get_next_move, if_neg h1, hg, hp, if_pos hpass]
          constructor
          · intro hcon
            cases hcon
          · rintro (hle | ⟨-, hno⟩)
            · exact absurd hle h1
            · exact absurd ⟨p0, next, rest, hp, hpass⟩ hno
        · simp only [get_next_move, if_neg h1, hg, hp, if_neg hpass]
          constructor
          · intro _
            refine Or.inr ⟨hnog, ?_⟩
            rintro ⟨q0, next2, rest2, hfp, hpass2⟩
            rw [hp] at hfp
            have hnx : next2 = next := by
              injection hfp with hl
              injection hl with _ hl2
              injection hl2 with hnext _
              exact hnext.symm
            rw [hnx] at hpass2
            exact absurd hpass2 hpass
          · intro _
            trivial
    · simp only [get_next_move, if_neg h1, hg]
      constructor
      · intro hcon
        cases hcon
      · rintro (hle | ⟨hall, -⟩)
        · exact absurd hle h1
        · have hgn : greedyStep s buf reserved start goal = none :=
            (greedyStep_eq_none_iff s buf reserved start goal).mpr hall
          rw [hg] at hgn
          cases hgn

/-! ## A* loop: frontier bookkeeping lemmas -/

/-- `popMin` yields `none` only on the empty frontier. -/
theorem popMin_eq_none_iff (l : List Entry) : popMin l = none ↔ l = [] := by
  cases l with
  | nil => simp [popMin]
  | cons e es =>
    simp only [popMin]
    rcases h : popMin es with _ | ⟨m, rest⟩
    · simp
    · dsimp only
      split <;> simp

/-- The popped entry is in the frontier, the remainder is a sublist of
it, and the frontier shrinks by exactly one. -/
theorem popMin_spec (l : List Entry) (e : Entry) (rest : List Entry)
    (h : popMin l = some (e, rest)) :
    e ∈ l ∧ (∀ x ∈ rest, x ∈ l) ∧ rest.length + 1 = l.length := by
  induction l generalizing e rest with
  | nil => simp [popMin] at h
  | cons a as ih =>
    simp only [popMin] at h
    rcases hm : popMin as with _ | ⟨m, r⟩
    · rw [hm] at h
      dsimp only at h
      injection h with h
      injection h with h1 h2
      subst h1; subst h2
      have : as = [] := (popMin_eq_none_iff as).mp hm
      subst this
      exact ⟨List.mem_cons_self a [], by simp, rfl⟩
    · rw [hm] at h
      dsimp only at h
      obtain ⟨hmem, hsub, hlen⟩ := ih m r hm
      split_ifs at h with hle
      · injection h with h
        injection h with h1 h2
        subst h1; subst h2
        exact ⟨List.mem_cons_self a as, fun x hx => List.mem_cons_of_mem a hx,
          by simp⟩
      · injection h with h
        injection h with h1 h2
        subst h1; subst h2
        refine ⟨List.mem_cons_of_mem a hmem, ?_, by simp [← hlen]⟩
        intro x hx
        rcases List.mem_cons.mp hx with rfl | hx'
        · exact List.mem_cons_self x as
        · exact List.mem_cons_of_mem a (hsub x hx')

/-- Each entry of the frontier after a neighbor push either was there
before, or records the pushed neighbor: passable or the goal tile, with
the extended path. -/
theorem pushNeighbor_mem (s : GameState) (buf : List (Coord × Nat))
    (reserved : List Coord) (goal cur : Position) (path : List Position)
    (visited : List Coord) (acc : List Entry × List (Coord × Nat) × Nat)
    (nd : Position × Dir) (x : Entry)
    (hx : x ∈ (pushNeighbor s buf reserved goal cur path visited acc nd).1) :
    x ∈ acc.1 ∨
      (x.pos = nd.1 ∧ x.path = path ++ [nd.1] ∧
        (isPassable s buf reserved nd.1.tuple = true ∨
          nd.1.tuple = goal.tuple)) := by
  unfold pushNeighbor at hx
  dsimp only at hx
  split at hx
  · exact Or.inl hx
  · split at hx
    · exact Or.inl hx
    · rename_i hskip
      split at hx
      · exact Or.inl hx
      · split at hx
        · rcases List.mem_append.mp hx with h | h
          · exact Or.inl h
          · rcases List.mem_singleton.mp h with rfl
            refine Or.inr ⟨rfl, rfl, ?_⟩
            by_cases hp : isPassable s buf reserved nd.1.tuple = true
            · exact Or.inl hp
            · right
              by_contra hng
              exact hskip ⟨by simpa using hp, hng⟩
        · exact Or.inl hx

/-- `pushNeighbor_mem` lifted along the fold over a neighbor list. -/
theorem foldl_pushNeighbor_mem (s : GameState) (buf : List (Coord × Nat))
    (reserved : List Coord) (goal cur : Position) (path : List Position)
    (visited : List Coord) (l : List (Position × Dir))
    (acc : List Entry × List (Coord × Nat) × Nat) (x : Entry)
    (hx : x ∈ (l.foldl (pushNeighbor s buf reserved goal cur path visited) acc).1) :
    x ∈ acc.1 ∨
      ∃ nd ∈ l, x.pos = nd.1 ∧ x.path = path ++ [nd.1] ∧
        (isPassable s buf reserved nd.1.tuple = true ∨
          nd.1.tuple = goal.tuple) := by
  induction l generalizing acc with
  | nil => exact Or.inl hx
  | cons a as ih =>
    rw [List.foldl_cons] at hx
    rcases ih _ hx with h | ⟨nd, hnd, hrest⟩
    · rcases pushNeighbor_mem s buf reserved goal cur path visited acc a x h
        with h' | h'
      · exact Or.inl h'
      · exact Or.inr ⟨a, List.mem_cons_self a as, h'⟩
    · exact Or.inr ⟨nd, List.mem_cons_of_mem a hnd, hrest⟩

/-- A single push grows the frontier by at most one entry. -/
theorem pushNeighbor_len (s : GameState) (buf : List (Coord × Nat))
    (reserved : List Coord) (goal cur : Position) (path : List Position)
    (visited : List Coord) (acc : List Entry × List (Coord × Nat) × Nat)
    (nd : Position × Dir) :
    (pushNeighbor s buf reserved goal cur path visited acc nd).1.length ≤
      acc.1.length + 1 := by
  unfold pushNeighbor
  dsimp only
  split
  · omega
  · split
    · omega
    · split
      · omega
      · split
        · simp
        · omega

/-- The fold over neighbors grows the frontier by at most the number of
neighbors. -/
theorem foldl_pushNeighbor_len (s : GameState) (buf : List (Coord × Nat))
    (reserved : List Coord) (goal cur : Position) (path : List Position)
    (visited : List Coord) (l : List (Position × Dir))
    (acc : List Entry × List (Coord × Nat) × Nat) :
    (l.foldl (pushNeighbor s buf reserved goal cur path visited) acc).1.length ≤
      acc.1.length + l.length := by
  induction l generalizing acc with
  | nil => simp
  | cons a as ih =>
    rw [List.foldl_cons]
    have h1 := ih (pushNeighbor s buf reserved goal cur path visited acc a)
    have h2 := pushNeighbor_len s buf reserved goal cur path visited acc a
    simp only [List.length_cons]
    omega

/-- Expanding one node pushes at most four new frontier entries. -/
theorem expandEntry_len (s : GameState) (buf : List (Coord × Nat))
    (reserved : List Coord) (goal : Position) (e : Entry)
    (visited : List Coord) (rest : List Entry) (g : List (Coord × Nat))
    (ctr : Nat) :
    (expandEntry s buf reserved goal e visited rest g ctr).1.length ≤
      rest.length + 4 := by
  have h := foldl_pushNeighbor_len s buf reserved goal e.pos e.path visited
    e.pos.neighbors (rest, g, ctr)
  simpa [Position.neighbors] using h

/-- The fuel supplied by `findPathBudget` always suffices: the measure
`5 * (budget - |visited|) + |frontier|` strictly decreases every
iteration, so the structural-fuel rendering of the `while` loop is
faithful to the source. -/
theorem aStarLoop_isSome (s : GameState) (buf : List (Coord × Nat))
    (reserved : List Coord) (goal : Position) (budget : Nat) :
    ∀ (fuel : Nat) (openSet : List Entry) (visited : List Coord)
      (g : List (Coord × Nat)) (ctr : Nat),
      5 * (budget - visited.length) + openSet.length < fuel →
      (aStarLoop s buf reserved goal budget fuel openSet visited g ctr).isSome := by
  intro fuel
  induction fuel with
  | zero => intro _ _ _ _ h; omega
  | succ fuel ih =>
    intro openSet visited g ctr h
    rw [aStarLoop]
    split
    · simp
    · rename_i hbudget
      rcases hpop : popMin openSet with _ | ⟨e, rest⟩
      · simp
      · have hlen := (popMin_spec openSet e rest hpop).2.2
        dsimp only
        split
        · apply ih
          omega
        · split
          · simp
          · apply ih
            have hexp := expandEntry_len s buf reserved goal e
              (e.pos.tuple :: visited) rest g ctr
            have hb : visited.length < budget := by omega
            simp only [List.length_cons]
            omega

/-! ## A* path invariants (C5, C10) -/

/-- A pushed neighbor entry inherits the invariant. -/
theorem EntryInv_push (s : GameState) (buf : List (Coord × Nat))
    (reserved : List Coord) (start goal : Position) (e : Entry)
    (he : EntryInv s buf reserved start goal e) (nd : Position × Dir)
    (hnd : nd ∈ e.pos.neighbors)
    (hpg : isPassable s buf reserved nd.1.tuple = true ∨
      nd.1.tuple = goal.tuple) (f c : Nat) :
    EntryInv s buf reserved start goal ⟨f, c, nd.1, e.path ++ [nd.1]⟩ := by
  obtain ⟨h1, h2, h3, h4⟩ := he
  have hpg' : isPassable s buf reserved nd.1.tuple = true ∨ nd.1 = goal := by
    rcases hpg with hp | hp
    · exact Or.inl hp
    · exact Or.inr (tuple_inj hp)
  cases hpath : e.path with
  | nil =>
    rw [hpath] at h2
    cases h2
  | cons a t =>
    rw [hpath] at h1 h2 h3 h4
    refine ⟨?_, ?_, ?_, ?_⟩
    · simpa using h1
    · exact List.getLast?_concat _
    · rw [List.chain'_append]
      refine ⟨h3, List.chain'_singleton _, ?_⟩
      intro x hx y hy
      rw [h2] at hx
      simp only [Option.mem_def, Option.some.injEq] at hx
      simp only [List.head?_cons, Option.mem_def, Option.some.injEq] at hy
      subst hx; subst hy
      exact ⟨nd.2, neighbors_step hnd⟩
    · intro p hp
      simp only [List.cons_append, List.tail_cons] at hp
      rcases List.mem_append.mp hp with hp' | hp'
      · exact h4 p (by simpa using hp')
      · rcases List.mem_singleton.mp hp' with rfl
        exact hpg'

/-- Whenever the search loop returns a path, that path starts at
`start`, reaches within Chebyshev distance 1 of the goal, steps one
cardinal tile at a time, and visits only passable-or-goal tiles after
the first. -/
theorem aStarLoop_path (s : GameState) (buf : List (Coord × Nat))
    (reserved : List Coord) (start goal : Position) (budget : Nat) :
    ∀ (fuel : Nat) (openSet : List Entry) (visited : List Coord)
      (g : List (Coord × Nat)) (ctr : Nat) (r : AStarResult)
      (path : List Position),
      (∀ e ∈ openSet, EntryInv s buf reserved start goal e) →
      aStarLoop s buf reserved goal budget fuel openSet visited g ctr = some r →
      r.result = some path →
      path.head? = some start ∧
      (∃ lst, path.getLast? = some lst ∧ lst.dist goal ≤ 1) ∧
      List.Chain' AdjStep path ∧
      ∀ p ∈ path.tail, isPassable s buf reserved p.tuple = true ∨ p = goal := by
  intro fuel
  induction fuel with
  | zero =>
    intro _ _ _ _ _ _ _ hres _
    cases hres
  | succ fuel ih =>
    intro openSet visited g ctr r path hall hres hpath
    rw [aStarLoop] at hres
    split at hres
    · injection hres with hres
      subst hres
      cases hpath
    · rcases hpop : popMin openSet with _ | ⟨e, rest⟩
      · rw [hpop] at hres
        injection hres with hres
        subst hres
        cases hpath
      · rw [hpop] at hres
        obtain ⟨hmem, hsub, -⟩ := popMin_spec openSet e rest hpop
        dsimp only at hres
        split at hres
        · exact ih rest visited g ctr r path
            (fun x hx => hall x (hsub x hx)) hres hpath
        · split at hres
          · rename_i hdist
            injection hres with hres
            subst hres
            simp only at hpath
            injection hpath with hpath
            subst hpath
            obtain ⟨h1, h2, h3, h4⟩ := hall e hmem
            exact ⟨h1, ⟨e.pos, h2, hdist⟩, h3, h4⟩
          · refine ih _ _ _ _ r path ?_ hres hpath
            intro x hx
            rcases foldl_pushNeighbor_mem s buf reserved goal e.pos e.path
              (e.pos.tuple :: visited) e.pos.neighbors (rest, g, ctr) x hx
              with h | ⟨nd, hnd, hx1, hx2, hx3⟩
            · exact hall x (hsub x h)
            · have := EntryInv_push s buf reserved start goal e
                (hall e hmem) nd hnd hx3 x.f x.counter
              have hxeq : x = ⟨x.f, x.counter, nd.1, e.path ++ [nd.1]⟩ := by
                cases x
                simp only at hx1 hx2
                simp [hx1, hx2]
              rw [hxeq]
              exact this

/-- `find_path` path soundness, shared by C5 and C10. -/
theorem find_path_sound (s : GameState) (buf : List (Coord × Nat))
    (reserved : List Coord) (start goal : Position) (maxSteps : Nat)
    (path : List Position)
    (h : find_path s buf reserved start goal maxSteps = some path) :
    path.head? = some start ∧
    (∃ lst, path.getLast? = some lst ∧ lst.dist goal ≤ 1) ∧
    List.Chain' AdjStep path ∧
    ∀ p ∈ path.tail, isPassable s buf reserved p.tuple = true ∨ p = goal := by
  unfold find_path findPathFull findPathBudget at h
  by_cases hsg : start = goal
  · rw [if_pos hsg] at h
    simp only at h
    injection h with h
    subst h
    refine ⟨rfl, ⟨start, rfl, ?_⟩, List.chain'_singleton _, by simp⟩
    subst hsg
    simp [dist_self]
  · rw [if_neg hsg] at h
    rcases hl : aStarLoop s buf reserved goal (maxSteps * 10)
        (5 * (maxSteps * 10) + 2) [⟨0, 0, start, [start]⟩] []
        [(start.tuple, 0)] 0 with _ | r
    · rw [hl] at h
      cases h
    · rw [hl] at h
      refine aStarLoop_path s buf reserved start goal (maxSteps * 10) _ _ _ _ _
        r path ?_ hl h
      intro x hx
      rcases List.mem_singleton.mp hx with rfl
      exact ⟨rfl, rfl, List.chain'_singleton _, by simp⟩

/-- C10: whenever `find_path` returns a path, its first element is the
start, consecutive elements differ by one cardinal step, and every
element after the first was passable at search time or is the goal. -/
theorem c10_path_structure (s : GameState) (buf : List (Coord × Nat))
    (reserved : List Coord) (start goal : Position) (maxSteps : Nat)
    (path : List Position)
    (h : find_path s buf reserved start goal maxSteps = some path) :
    path.head? = some start ∧
    List.Chain' AdjStep path ∧
    ∀ p ∈ path.tail, isPassable s buf reserved p.tuple = true ∨ p = goal := by
  obtain ⟨h1, -, h3, h4⟩ := find_path_sound s buf reserved start goal
    maxSteps path h
  exact ⟨h1, h3, h4⟩

/-- Partial sums of naturals never decrease. -/
theorem scanl_add_chain (l : List Nat) (a : Nat) :
    List.Chain' (· ≤ ·) (l.scanl (· + ·) a) := by
  induction l generalizing a with
  | nil => simp
  | cons x xs ih =>
    rw [List.scanl_cons]
    refine List.chain'_cons'.mpr ⟨?_, ih (a + x)⟩
    intro y hy
    have hhd : (xs.scanl (· + ·) (a + x)).head? = some (a + x) := by
      cases xs <;> rfl
    have hna : ([] : List Nat).append (xs.scanl (· + ·) (a + x)) =
        xs.scanl (· + ·) (a + x) := rfl
    rw [hna, hhd] at hy
    simp only [Option.mem_def, Option.some.injEq] at hy
    omega

/-- C5: whenever `find_path` returns a path, the last position is
within Chebyshev distance 1 of the goal, and the cumulative movement
cost is non-decreasing along the path. -/
theorem c5_goal_and_cost (s : GameState) (buf : List (Coord × Nat))
    (reserved : List Coord) (start goal : Position) (maxSteps : Nat)
    (path : List Position)
    (h : find_path s buf reserved start goal maxSteps = some path) :
    (∃ lst, path.getLast? = some lst ∧ lst.dist goal ≤ 1) ∧
    List.Chain' (· ≤ ·) (cumCosts s path) := by
  obtain ⟨-, h2, -, -⟩ := find_path_sound s buf reserved start goal
    maxSteps path h
  exact ⟨h2, scanl_add_chain _ 0⟩

/-! ## C4: the A* node budget -/

/-- The search expands at most its budget of nodes, and when it gives
up with a nonempty frontier it has expanded exactly the budget. -/
theorem aStarLoop_budget (s : GameState) (buf : List (Coord × Nat))
    (reserved : List Coord) (goal : Position) (budget : Nat) :
    ∀ (fuel : Nat) (openSet : List Entry) (visited : List Coord)
      (g : List (Coord × Nat)) (ctr : Nat) (r : AStarResult),
      visited.length ≤ budget →
      aStarLoop s buf reserved goal budget fuel openSet visited g ctr = some r →
      r.visited.length ≤ budget ∧
      (r.result = none → r.frontier = [] ∨ r.visited.length = budget) := by
  intro fuel
  induction fuel with
  | zero =>
    intro _ _ _ _ _ _ hres
    cases hres
  | succ fuel ih =>
    intro openSet visited g ctr r hv hres
    rw [aStarLoop] at hres
    split at hres
    · rename_i hb
      injection hres with hres
      subst hres
      exact ⟨hv, fun _ => Or.inr (show visited.length = budget by omega)⟩
    · rename_i hb
      rcases hpop : popMin openSet with _ | ⟨e, rest⟩
      · rw [hpop] at hres
        injection hres with hres
        subst hres
        have : openSet = [] := (popMin_eq_none_iff openSet).mp hpop
        exact ⟨hv, fun _ => Or.inl this⟩
      · rw [hpop] at hres
        dsimp only at hres
        split at hres
        · exact ih rest visited g ctr r hv hres
        · split at hres
          · injection hres with hres
            subst hres
            refine ⟨by simp only [List.length_cons]; omega, ?_⟩
            intro hcon
            cases hcon
          · refine ih _ _ _ _ r ?_ hres
            simp only [List.length_cons]
            omega

/-- C4 (amended): `find_path`'s search expands at most
`10 * max_steps` nodes — not `30 * max_steps` — and returns no path
with a nonempty remaining frontier only when it has expanded exactly
`10 * max_steps` nodes. -/
theorem c4_budget_is_ten_times (s : GameState) (buf : List (Coord × Nat))
    (reserved : List Coord) (start goal : Position) (maxSteps : Nat) :
    (findPathFull s buf reserved start goal maxSteps).visited.length ≤
      10 * maxSteps ∧
    ((findPathFull s buf reserved start goal maxSteps).result = none ∧
      (findPathFull s buf reserved start goal maxSteps).frontier ≠ [] →
      (findPathFull s buf reserved start goal maxSteps).visited.length =
        10 * maxSteps) := by
  unfold findPathFull findPathBudget
  by_cases hsg : start = goal
  · rw [if_pos hsg]
    refine ⟨by simp, ?_⟩
    rintro ⟨hr, -⟩
    cases hr
  · rw [if_neg hsg]
    rcases hl : aStarLoop s buf reserved goal (maxSteps * 10)
        (5 * (maxSteps * 10) + 2) [⟨0, 0, start, [start]⟩] []
        [(start.tuple, 0)] 0 with _ | r
    · refine ⟨by simp, ?_⟩
      rintro ⟨-, hf⟩
      simp at hf
    · obtain ⟨hle, hnone⟩ := aStarLoop_budget s buf reserved goal
        (maxSteps * 10) _ _ _ _ _ r (by simp) hl
      simp only [Option.getD_some]
      refine ⟨by omega, ?_⟩
      rintro ⟨hr, hf⟩
      rcases hnone hr with hemp | hexact
      · exact absurd hemp hf
      · omega

/-! ## C1: duplicate unit ids through the tower phase, and C4
counterexample -/

/-- C1 fails on the code: on the `c1raw` snapshot (two spawns, one
eligible builder) the tower-construction phase assigns the same worker
(unit id 1) one build action per spawn, because `builders` is filtered
against `processed` only once, before the per-spawn loop.  The emitted
batch contains unit id 1 twice. -/
theorem c1_tower_phase_duplicates_unit :
    hasDupIds ((think (GameState.parse c1raw) DEFAULT_STRATEGY c1buf
        []).actions.filterMap Action.unitId?) = true ∧
    (think (GameState.parse c1raw) DEFAULT_STRATEGY c1buf []).actions =
      [.build 1 .north "tower", .build 1 .south "tower"] := by
  decide

/-- C4 counterexample: on an open field with `max_steps = 1`, the
search gives up (result `none`) with a nonempty frontier after
expanding only 10 nodes — not the claimed 30 × max_steps = 30 — while
the same loop run with a budget of 30 × max_steps finds a path.  The
node budget in the code is `max_steps * 10`. -/
theorem c4_thirty_budget_refuted :
    (findPathFull openFieldState [] [] ⟨0, 0⟩ ⟨12, 0⟩ 1).result = none ∧
    (findPathFull openFieldState [] [] ⟨0, 0⟩ ⟨12, 0⟩ 1).frontier ≠ [] ∧
    ¬((findPathFull openFieldState [] [] ⟨0, 0⟩ ⟨12, 0⟩ 1).visited.length =
      30 * 1) ∧
    (findPathBudget openFieldState [] [] ⟨0, 0⟩ ⟨12, 0⟩ (30 * 1)).result.isSome
      = true := by
  decide

/-- Witness for the amended C4 bound at a concrete input: the search
expanded exactly its 10 × max_steps budget there. -/
theorem c4_budget_witness :
    (findPathFull openFieldState [] [] ⟨0, 0⟩ ⟨12, 0⟩ 1).visited.length ≤
      10 * 1 ∧
    (findPathFull openFieldState [] [] ⟨0, 0⟩ ⟨12, 0⟩ 1).visited.length =
      10 * 1 := by
  obtain ⟨ha, hb⟩ :=
    c4_budget_is_ten_times openFieldState [] [] ⟨0, 0⟩ ⟨12, 0⟩ 1
  exact ⟨ha, hb (by decide)⟩

/-- Witness for C3 at a concrete input: east is the first (and only)
improving neighbor toward (5, 0). -/
theorem c3_witness :
    (1 < (⟨0, 0⟩ : Position).dist ⟨5, 0⟩) ∧
    get_next_move openFieldState [] [] ⟨0, 0⟩ ⟨5, 0⟩ =
      some (.east, (1, 0)) :=
  ⟨by decide,
    c3_greedy_first_found openFieldState [] [] ⟨0, 0⟩ ⟨5, 0⟩
      (.east, (1, 0)) (by decide) (by decide)⟩

/-- Witness for C5 at a concrete input: the returned path ends at
(2, 0), within distance 1 of the goal (3, 0), with monotone cost. -/
theorem c5_witness :
    (⟨2, 0⟩ : Position).dist ⟨3, 0⟩ ≤ 1 ∧
    List.Chain' (· ≤ ·)
      (cumCosts openFieldState [⟨0, 0⟩, ⟨1, 0⟩, ⟨2, 0⟩]) := by
  obtain ⟨⟨lst, hl, hd⟩, hc⟩ :=
    c5_goal_and_cost openFieldState [] [] ⟨0, 0⟩ ⟨3, 0⟩ 30
      [⟨0, 0⟩, ⟨1, 0⟩, ⟨2, 0⟩] (by decide)
  have hlst : lst = ⟨2, 0⟩ := by
    have h2 : some (⟨2, 0⟩ : Position) = some lst := by
      rw [← hl]
      rfl
    injection h2 with h2
    exact h2.symm
  rw [hlst] at hd
  exact ⟨hd, hc⟩

/-- Witness for C10 at a concrete input: the returned path starts at
the start and is a cardinal-step chain. -/
theorem c10_witness :
    ([⟨0, 0⟩, ⟨1, 0⟩, ⟨2, 0⟩] : List Position).head? = some ⟨0, 0⟩ ∧
    List.Chain' AdjStep [⟨0, 0⟩, ⟨1, 0⟩, ⟨2, 0⟩] := by
  obtain ⟨h1, h2, -⟩ :=
    c10_path_structure openFieldState [] [] ⟨0, 0⟩ ⟨3, 0⟩ 30
      [⟨0, 0⟩, ⟨1, 0⟩, ⟨2, 0⟩] (by decide)
  exact ⟨h1, h2⟩

/-! ## C7: the protection flag suppresses all attack actions -/

/-- A generic preservation lemma for the phase folds. -/
theorem foldl_preserve {α : Type} {P : TS → Prop} (f : TS → α → TS)
    (l : List α) (ts : TS) (h0 : P ts)
    (hstep : ∀ ts' x, x ∈ l → P ts' → P (f ts' x)) : P (l.foldl f ts) := by
  induction l generalizing ts with
  | nil => exact h0
  | cons a as ih =>
    exact ih _ (hstep ts a (List.mem_cons_self a as) h0)
      fun ts' x hx => hstep ts' x (List.mem_cons_of_mem a hx)

theorem AttackFree_pushMove {ts : TS} (h : AttackFree ts) (uid : Nat)
    (npos : Coord) (d : Dir) : AttackFree (pushMove ts uid npos d) := by
  intro a ha
  rcases List.mem_append.mp ha with ha' | ha'
  · exact h a ha'
  · rcases List.mem_singleton.mp ha' with rfl
    rfl

theorem AttackFree_pushStay {ts : TS} (h : AttackFree ts) (uid : Nat)
    (a' : Action) (pos : Coord) (ha' : a'.isAttack = false) :
    AttackFree (pushStay ts uid a' pos) := by
  intro a ha
  rcases List.mem_append.mp ha with hm | hm
  · exact h a hm
  · rcases List.mem_singleton.mp hm with rfl
    exact ha'

theorem AttackFree_pushAction {ts : TS} (h : AttackFree ts) (a' : Action)
    (ha' : a'.isAttack = false) : AttackFree (pushAction ts a') := by
  intro a ha
  rcases List.mem_append.mp ha with hm | hm
  · exact h a hm
  · rcases List.mem_singleton.mp hm with rfl
    exact ha'

theorem AttackFree_phase1 (s : GameState) (buf : List (Coord × Nat))
    (primary : Option Structure) (soldiers : List BotUnit) (ts : TS)
    (h : AttackFree ts) : AttackFree (phase1 s buf primary soldiers ts) := by
  unfold phase1
  cases primary with
  | none => exact h
  | some psp =>
    apply foldl_preserve _ _ _ h
    intro ts' u _ hP
    unfold clearSpawnSoldier
    dsimp only
    split
    · exact AttackFree_pushMove hP _ _ _
    · split
      · exact AttackFree_pushMove hP _ _ _
      · exact hP

theorem AttackFree_phase2 (workers : List BotUnit)
    (sites : List Structure) (ts : TS) (h : AttackFree ts) :
    AttackFree (phase2 workers sites ts) := by
  unfold phase2
  apply foldl_preserve _ _ _ h
  intro ts' site _ hP
  unfold fundSite
  dsimp only
  split
  · exact hP
  · apply foldl_preserve _ _ _ hP
    intro ts'' w _ hP'
    split
    · exact hP'
    · split
      · exact hP'
      · split
        · exact AttackFree_pushStay hP' _ _ _ rfl
        · exact hP'

theorem AttackFree_phase3 (workers : List BotUnit)
    (spawns : List Structure) (ts : TS) (h : AttackFree ts) :
    AttackFree (phase3 workers spawns ts) := by
  unfold phase3
  split
  · exact h
  · apply foldl_preserve _ _ _ h
    intro ts' w _ hP
    split
    · exact hP
    · split
      · exact hP
      · split
        · exact hP
        · split
          · exact AttackFree_pushStay hP _ _ _ rfl
          · exact hP

theorem AttackFree_phase4 (workers : List BotUnit) (sources : List Source)
    (ts : TS) (h : AttackFree ts) :
    AttackFree (phase4 workers sources ts) := by
  unfold phase4
  apply foldl_preserve _ _ _ h
  intro ts' w _ hP
  split
  · exact hP
  · split
    · exact hP
    · split
      · exact AttackFree_pushStay hP _ _ _ rfl
      · exact hP

theorem AttackFree_phase5 (s : GameState) (buf : List (Coord × Nat))
    (primary : Option Structure) (workers : List BotUnit)
    (spawns : List Structure) (sources : List Source) (ts : TS)
    (h : AttackFree ts) :
    AttackFree (phase5 s buf primary workers spawns sources ts) := by
  unfold phase5
  split
  · exact h
  · exact h
  · apply foldl_preserve _ _ _ h
    intro ts' w _ hP
    dsimp only
    split
    · exact hP
    · split
      · exact AttackFree_pushMove hP _ _ _
      · exact hP

theorem AttackFree_phase6 (s : GameState) (buf : List (Coord × Nat))
    (primary : Option Structure) (workers : List BotUnit)
    (sites : List Structure) (ts : TS) (h : AttackFree ts) :
    AttackFree (phase6 s buf primary workers sites ts) := by
  unfold phase6
  split
  · apply foldl_preserve _ _ _ h
    intro ts' w _ hP
    dsimp only
    split
    · exact hP
    · split
      · exact AttackFree_pushMove hP _ _ _
      · exact hP
  · exact h

theorem AttackFree_phase7 (s : GameState) (buf : List (Coord × Nat))
    (workers : List BotUnit) (ts : TS) (h : AttackFree ts) :
    AttackFree (phase7 s buf workers ts) := by
  unfold phase7
  apply foldl_preserve _ _ _ h
  intro ts' w _ hP
  split
  · exact AttackFree_pushMove hP _ _ _
  · exact hP

theorem AttackFree_towerBuilders (s : GameState) (buf : List (Coord × Nat)) :
    ∀ (ws : List BotUnit) (tps : List Coord) (ts : TS), AttackFree ts →
      AttackFree (towerBuilders s buf ws tps ts) := by
  intro ws
  induction ws with
  | nil =>
    intro tps ts h
    simpa [towerBuilders] using h
  | cons w ws ih =>
    intro tps ts h
    rw [towerBuilders.eq_def]
    cases tps with
    | nil => exact h
    | cons t0 trest =>
      dsimp only
      split
      · split
        · rename_i d heq
          apply ih
          intro a ha
          exact AttackFree_pushStay h w.id (Action.build w.id d "tower")
            w.pos.tuple rfl a ha
        · exact ih _ _ h
      · split
        · exact ih _ _ (AttackFree_pushMove h _ _ _)
        · exact ih _ _ h

theorem AttackFree_phase8 (s : GameState) (buf : List (Coord × Nat))
    (towerCap : Nat) (workers : List BotUnit)
    (spawns towers sites : List Structure) (ts : TS) (h : AttackFree ts) :
    AttackFree (phase8 s buf towerCap workers spawns towers sites ts) := by
  unfold phase8
  split
  · exact h
  · split
    · apply foldl_preserve _ _ _ h
      intro ts' sp _ hP
      dsimp only
      split
      · exact hP
      · exact AttackFree_towerBuilders s buf _ _ _ hP
    · exact h

theorem AttackFree_soldierStep (s : GameState) (buf : List (Coord × Nat))
    (spawns : List Structure) (foes : List ChunkUnit) (ts : TS)
    (u : BotUnit) (hprot : s.isProtected = true) (h : AttackFree ts) :
    AttackFree (soldierStep s buf spawns foes ts u) := by
  unfold soldierStep
  simp only [hprot, if_true]
  split
  · exact h
  · split
    · exact AttackFree_pushMove h _ _ _
    · split
      · exact AttackFree_pushMove h _ _ _
      · split
        · exact h
        · split
          · split
            · exact AttackFree_pushMove h _ _ _
            · exact h
          · exact h

theorem AttackFree_phase9 (s : GameState) (buf : List (Coord × Nat))
    (spawns : List Structure) (soldiers : List BotUnit) (ts : TS)
    (hprot : s.isProtected = true) (h : AttackFree ts) :
    AttackFree (phase9 s buf spawns soldiers ts) := by
  unfold phase9
  apply foldl_preserve _ _ _ h
  intro ts' u _ hP
  exact AttackFree_soldierStep s buf spawns s.enemies ts' u hprot hP

/-- Membership in an `if` of lists is membership in one branch. -/
theorem mem_of_mem_ite {α : Type} {c : Prop} [Decidable c]
    {l1 l2 : List α} {a : α} (h : a ∈ (if c then l1 else l2)) :
    a ∈ l1 ∨ a ∈ l2 := by
  by_cases hc : c
  · rw [if_pos hc] at h
    exact Or.inl h
  · rw [if_neg hc] at h
    exact Or.inr h

/-- Everything the spawning decision chain emits is a `spawn`. -/
theorem spawnDecision_no_attack (strategy : Strategy) (numW numS : Nat)
    (sp : Structure) :
    ∀ a ∈ spawnDecision strategy numW numS sp, a.isAttack = false := by
  intro a ha
  unfold spawnDecision at ha
  rcases mem_of_mem_ite ha with ha | ha
  · rcases mem_of_mem_ite ha with ha | ha
    · rcases List.mem_singleton.mp ha with rfl
      rfl
    · rcases mem_of_mem_ite ha with ha | ha
      · rcases List.mem_singleton.mp ha with rfl
        rfl
      · cases ha
  · rcases mem_of_mem_ite ha with ha | ha
    · rcases mem_of_mem_ite ha with ha | ha
      · rcases List.mem_singleton.mp ha with rfl
        rfl
      · rcases mem_of_mem_ite ha with ha | ha
        · rcases List.mem_singleton.mp ha with rfl
          rfl
        · cases ha
    · rcases mem_of_mem_ite ha with ha | ha
      · rcases mem_of_mem_ite ha with ha | ha
        · rcases List.mem_singleton.mp ha with rfl
          rfl
        · rcases mem_of_mem_ite ha with ha | ha
          · rcases List.mem_singleton.mp ha with rfl
            rfl
          · cases ha
      · rcases mem_of_mem_ite ha with ha | ha
        · rcases List.mem_singleton.mp ha with rfl
          rfl
        · rcases mem_of_mem_ite ha with ha | ha
          · rcases List.mem_singleton.mp ha with rfl
            rfl
          · cases ha

theorem AttackFree_phase10 (s : GameState) (strategy : Strategy)
    (numW numS : Nat) (spawns : List Structure) (ts : TS)
    (h : AttackFree ts) :
    AttackFree (phase10 s strategy numW numS spawns ts) := by
  unfold phase10
  apply foldl_preserve _ _ _ h
  intro ts' sp _ hP
  split
  · apply foldl_preserve _ _ _ hP
    intro ts'' a ha hP'
    exact AttackFree_pushAction hP' a (spawnDecision_no_attack _ _ _ _ a ha)
  · exact hP

/-- C7: while the protection flag is set (`level < 6`), the batch
emitted by `think` contains no `attack` action at all. -/
theorem c7_protection_blocks_attacks (s : GameState) (strategy : Strategy)
    (buf : List (Coord × Nat)) (placed0 : List Coord)
    (h : s.myLevel < 6) :
    ((think s strategy buf placed0).actions.all fun a => !a.isAttack) =
      true := by
  have hprot : s.isProtected = true := by
    simp [GameState.isProtected, h]
  have hfree : AttackFree (think s strategy buf placed0) := by
    unfold think
    apply AttackFree_phase10
    apply AttackFree_phase9 _ _ _ _ _ hprot
    apply AttackFree_phase8
    apply AttackFree_phase7
    apply AttackFree_phase6
    apply AttackFree_phase5
    apply AttackFree_phase4
    apply AttackFree_phase3
    apply AttackFree_phase2
    apply AttackFree_phase1
    intro a ha
    cases ha
  rw [List.all_eq_true]
  intro a ha
  rw [hfree a ha]
  rfl

/-! ## C8: parse defaults, and C9: unknown priority mode -/

/-- C8 counterexample: on the all-absent raw snapshot the agent level
parses to 1, not 0 as the claim states. -/
theorem c8_level_defaults_to_one :
    (GameState.parse emptyRaw).myLevel = 1 ∧
    ¬((GameState.parse emptyRaw).myLevel = 0) := by
  decide

/-- C8 (amended): parsing is total (every `Raw` yields a `GameState`),
each absent collection defaults to empty — including every derived
spatial index — and each absent numeric field defaults to zero,
except the agent level, which defaults to 1. -/
theorem c8_parse_defaults (r : Raw) :
    (r.tick = none → (GameState.parse r).tick = 0) ∧
    (r.myUnits = none → (GameState.parse r).myUnits = []) ∧
    (r.myStructures = none → (GameState.parse r).myStructures = [] ∧
      (GameState.parse r).structurePosList = [] ∧
      (GameState.parse r).constructionSites = []) ∧
    (r.visibleChunks = none → (GameState.parse r).visibleChunks = [] ∧
      (GameState.parse r).walls = [] ∧ (GameState.parse r).swamps = [] ∧
      (GameState.parse r).sources = [] ∧
      (GameState.parse r).enemies = [] ∧
      (GameState.parse r).enemyStructures = []) ∧
    (r.myUnits = none → r.visibleChunks = none →
      (GameState.parse r).allUnitPositions = []) ∧
    (r.agent = none → (GameState.parse r).agentId = none ∧
      (GameState.parse r).myLevel = 1) ∧
    (∀ a, r.agent = some a → a.level = none →
      (GameState.parse r).myLevel = 1) ∧
    (∀ c : Chunk, c.terrain = none → c.cells = []) ∧
    (∀ c : Chunk, c.chunkX = none →
      c.cells = Chunk.cells { c with chunkX := some 0 }) ∧
    (∀ c : Chunk, c.chunkY = none →
      c.cells = Chunk.cells { c with chunkY := some 0 }) ∧
    (∀ u : BotUnit, u.energy = none → u.energyD = 0) ∧
    (∀ src : Source, src.energy = none → src.energy.getD 0 = 0) ∧
    (∀ sp : Structure, sp.energy = none → sp.store = none →
      sp.spawnEnergy = 0) := by
  refine ⟨?_, ?_, ?_, ?_, ?_, ?_, ?_, ?_, ?_, ?_, ?_, ?_, ?_⟩
  · intro h
    simp [GameState.parse, h]
  · intro h
    simp [GameState.parse, h]
  · intro h
    simp [GameState.parse, GameState.structurePosList,
      GameState.constructionSites, h]
  · intro h
    simp [GameState.parse, GameState.walls, GameState.swamps,
      GameState.sources, GameState.enemies, GameState.enemyStructures, h]
  · intro h1 h2
    simp [GameState.parse, GameState.allUnitPositions, GameState.enemies,
      h1, h2]
  · intro h
    simp [GameState.parse, h]
  · intro a ha hl
    simp [GameState.parse, ha, hl]
  · intro c h
    simp [Chunk.cells, h]
  · intro c h
    simp [Chunk.cells, h]
  · intro c h
    simp [Chunk.cells, h]
  · intro u h
    simp [BotUnit.energyD, h]
  · intro src h
    simp [h]
  · intro sp h1 h2
    simp [Structure.spawnEnergy, h1, h2]

/-- C8 witness: the defaults at the all-absent snapshot. -/
theorem c8_witness :
    (GameState.parse emptyRaw).tick = 0 ∧
    (GameState.parse emptyRaw).myUnits = [] ∧
    (GameState.parse emptyRaw).walls = [] ∧
    (GameState.parse emptyRaw).myLevel = 1 := by
  obtain ⟨h1, h2, h3, h4, h5, h6, -⟩ := c8_parse_defaults emptyRaw
  exact ⟨h1 rfl, h2 rfl, (h4 rfl).2.1, (h6 rfl).2⟩

/-- C7 witness: a protected snapshot with a soldier adjacent to an
enemy emits no attack. -/
theorem c7_witness :
    (GameState.parse c7raw).myLevel < 6 ∧
    ((think (GameState.parse c7raw) DEFAULT_STRATEGY [] []).actions.all
      fun a => !a.isAttack) = true :=
  ⟨by decide,
    c7_protection_blocks_attacks (GameState.parse c7raw) DEFAULT_STRATEGY
      [] [] (by decide)⟩

/-- Folding `pushAction` appends the whole list of actions. -/
theorem foldl_pushAction (l : List Action) (ts : TS) :
    l.foldl pushAction ts = { ts with actions := ts.actions ++ l } := by
  induction l generalizing ts with
  | nil => simp
  | cons a as ih =>
    rw [List.foldl_cons, ih]
    simp [pushAction]

/-- With an unrecognized mode, the decision chain falls through to the
balanced branch. -/
theorem spawnDecision_unknown_eq_balanced (strategy : Strategy)
    (h1 : strategy.priority_mode ≠ "economy")
    (h2 : strategy.priority_mode ≠ "military")
    (h3 : strategy.priority_mode ≠ "defense")
    (numW numS : Nat) (sp : Structure) :
    spawnDecision strategy numW numS sp =
      spawnDecision { strategy with priority_mode := "balanced" }
        numW numS sp := by
  unfold spawnDecision
  rw [if_neg h1, if_neg h2, if_neg h3,
    if_neg (show ¬("balanced" = "economy") by decide),
    if_neg (show ¬("balanced" = "military") by decide),
    if_neg (show ¬("balanced" = "defense") by decide)]

/-- With an unrecognized mode, the spawning phase appends exactly the
balanced-mode spawn actions described by the claim. -/
theorem phase10_unknown_mode_spec (s : GameState) (strategy : Strategy)
    (h1 : strategy.priority_mode ≠ "economy")
    (h2 : strategy.priority_mode ≠ "military")
    (h3 : strategy.priority_mode ≠ "defense")
    (numW numS : Nat) (spawns : List Structure) (ts : TS) :
    phase10 s strategy numW numS spawns ts =
      { ts with actions := ts.actions ++ spawns.flatMap (balancedSpawnSpec s strategy.worker_cap strategy.soldier_cap strategy.spawn_energy_reserve numW numS) } := by
  induction spawns generalizing ts with
  | nil => simp [phase10]
  | cons sp rest ih =>
    have hstep : phase10 s strategy numW numS (sp :: rest) ts =
        phase10 s strategy numW numS rest
          (if spawnHasSpace s sp then
            (spawnDecision strategy numW numS sp).foldl pushAction ts
          else ts) := rfl
    rw [hstep, ih]
    have hdec : spawnDecision strategy numW numS sp =
        (if numW < strategy.worker_cap ∧ 100 ≤ sp.spawnEnergy then
          [Action.spawnUnit sp.id "worker"]
        else if numS < strategy.soldier_cap ∧
            strategy.spawn_energy_reserve ≤ sp.spawnEnergy then
          [Action.spawnUnit sp.id "soldier"]
        else []) := by
      unfold spawnDecision
      rw [if_neg h1, if_neg h2, if_neg h3]
    by_cases hs : spawnHasSpace s sp = true
    · rw [if_pos hs, foldl_pushAction, hdec]
      simp [List.flatMap_cons, balancedSpawnSpec, hs, List.append_assoc]
    · rw [if_neg hs]
      simp [List.flatMap_cons, balancedSpawnSpec, hs]

/-- C9: an unrecognized `priority_mode` behaves exactly like
"balanced": the whole tick's batch coincides with the balanced-mode
batch, and the spawning phase emits precisely the claim's balanced
decisions (worker if under cap with ≥ 100 energy, else soldier if
under cap with at least the energy reserve, only at spawns with an
empty adjacent tile). -/
theorem c9_unknown_mode_balanced (s : GameState) (strategy : Strategy)
    (buf : List (Coord × Nat)) (placed0 : List Coord)
    (h1 : strategy.priority_mode ≠ "economy")
    (h2 : strategy.priority_mode ≠ "military")
    (h3 : strategy.priority_mode ≠ "defense") :
    think s strategy buf placed0 =
      think s { strategy with priority_mode := "balanced" } buf placed0 ∧
    ∀ (numW numS : Nat) (spawns : List Structure) (ts : TS),
      phase10 s strategy numW numS spawns ts =
        { ts with actions := ts.actions ++ spawns.flatMap (balancedSpawnSpec s strategy.worker_cap strategy.soldier_cap strategy.spawn_energy_reserve numW numS) } := by
  constructor
  · have hp10 : ∀ (numW numS : Nat) (spawns : List Structure) (ts : TS),
        phase10 s strategy numW numS spawns ts =
          phase10 s { strategy with priority_mode := "balanced" }
            numW numS spawns ts := by
      intro numW numS spawns ts
      rw [phase10_unknown_mode_spec s strategy h1 h2 h3,
        phase10_unknown_mode_spec s { strategy with priority_mode := "balanced" }
          (by intro h; simp at h) (by intro h; simp at h)
          (by intro h; simp at h)]
    unfold think
    dsimp only
    rw [hp10]
  · exact phase10_unknown_mode_spec s strategy h1 h2 h3

/-- C9 witness: a concrete unknown mode ("turtle") produces the same
batch as balanced on the two-spawn snapshot. -/
theorem c9_witness :
    think (GameState.parse c1raw) turtleStrategy c1buf [] =
      think (GameState.parse c1raw)
        { turtleStrategy with priority_mode := "balanced" } c1buf [] :=
  (c9_unknown_mode_balanced (GameState.parse c1raw) turtleStrategy c1buf []
    (by decide) (by decide) (by decide)).1

/-! ## C2: every move destination is free and unreserved -/

theorem mem_insertSorted {α : Type} (f : α → Nat) (x y : α)
    (l : List α) (h : y ∈ insertSorted f x l) : y = x ∨ y ∈ l := by
  induction l with
  | nil => simpa [insertSorted] using h
  | cons a as ih =>
    unfold insertSorted at h
    split_ifs at h
    · rcases List.mem_cons.mp h with rfl | h'
      · exact Or.inr (List.mem_cons_self y as)
      · rcases ih h' with h'' | h''
        · exact Or.inl h''
        · exact Or.inr (List.mem_cons_of_mem a h'')
    · rcases List.mem_cons.mp h with rfl | h'
      · exact Or.inl rfl
      · exact Or.inr h'

theorem mem_sortByKey {α : Type} (f : α → Nat) (y : α) (l : List α)
    (h : y ∈ sortByKey f l) : y ∈ l := by
  induction l with
  | nil => simpa [sortByKey] using h
  | cons a as ih =>
    unfold sortByKey at h
    rw [List.foldr_cons] at h
    rcases mem_insertSorted f a y _ h with rfl | h'
    · exact List.mem_cons_self y as
    · exact List.mem_cons_of_mem a (ih h')

/-- A worker picked by any phase belongs to the snapshot's own units. -/
theorem getWorkers_sub (s : GameState) (w : BotUnit)
    (h : w ∈ s.getWorkers) : w ∈ s.myUnits :=
  List.mem_of_mem_filter h

theorem getSoldiers_sub (s : GameState) (u : BotUnit)
    (h : u ∈ s.getSoldiers) : u ∈ s.myUnits :=
  List.mem_of_mem_filter h

/-- With distinct unit ids, lookup by id recovers a unit's snapshot
position. -/
theorem posOfUnit_eq (s : GameState)
    (hids : (s.myUnits.map BotUnit.id).Nodup) (w : BotUnit)
    (hw : w ∈ s.myUnits) : posOfUnit s w.id = some (BotUnit.pos w) := by
  unfold posOfUnit
  rcases hf : s.myUnits.find? fun u => u.id = w.id with _ | u
  · exfalso
    have := List.find?_eq_none.mp hf w hw
    simp at this
  · have hu : u ∈ s.myUnits := List.mem_of_find?_eq_some hf
    have hid : u.id = w.id := by
      have := List.find?_some hf
      simpa using this
    have huw : u = w := List.inj_on_of_nodup_map hids hu hw hid
    subst huw
    rw [hf]
    rfl

/-- What `is_passable` guarantees about a tile. -/
theorem isPassable_spec (s : GameState) (buf : List (Coord × Nat))
    (res : List Coord) (pos : Coord)
    (h : isPassable s buf res pos = true) :
    pos ∉ s.walls ∧ pos ∉ s.structurePosList ∧ pos ∉ res ∧
      pos ∉ s.allUnitPositions := by
  unfold isPassable at h
  by_cases h1 : pos ∈ s.walls
  · rw [if_pos h1] at h
    cases h
  · rw [if_neg h1] at h
    by_cases h2 : pos ∈ s.structurePosList
    · rw [if_pos h2] at h
      cases h
    · rw [if_neg h2] at h
      by_cases h3 : pos ∈ res
      · rw [if_pos h3] at h
        cases h
      · rw [if_neg h3] at h
        by_cases h4 : pos ∈ s.allUnitPositions
        · rw [if_pos h4] at h
          cases h
        · exact ⟨h1, h2, h3, h4⟩

theorem resvAfter_append (s : GameState) (l1 l2 : List Action)
    (r : List Coord) :
    resvAfter s (l1 ++ l2) r = resvAfter s l2 (resvAfter s l1 r) :=
  List.foldl_append _ _ _ _

theorem checkMoves_append (s : GameState) (l1 l2 : List Action)
    (r : List Coord) :
    checkMoves s (l1 ++ l2) r =
      (checkMoves s l1 r && checkMoves s l2 (resvAfter s l1 r)) := by
  induction l1 generalizing r with
  | nil => simp [checkMoves, resvAfter]
  | cons a as ih =>
    have h1 : resvAfter s (a :: as) r = resvAfter s as (resvStep s r a) := rfl
    show (checkMove1 s r a && checkMoves s (as ++ l2) (resvStep s r a)) =
      ((checkMove1 s r a && checkMoves s as (resvStep s r a)) &&
        checkMoves s l2 (resvAfter s (a :: as) r))
    rw [ih, h1, Bool.and_assoc]

theorem MInv_pushMove (s : GameState) (buf : List (Coord × Nat))
    (ts : TS) (hids : (s.myUnits.map BotUnit.id).Nodup) (w : BotUnit)
    (hw : w ∈ s.myUnits) (d : Dir) (npos : Coord)
    (hnp : npos = ((BotUnit.pos w).step d).tuple)
    (hpass : isPassable s buf ts.reserved npos = true)
    (h : MInv s ts) : MInv s (pushMove ts w.id npos d) := by
  obtain ⟨hc, hr⟩ := h
  obtain ⟨hw1, hw2, hw3, hw4⟩ := isPassable_spec s buf ts.reserved npos hpass
  have hpos := posOfUnit_eq s hids w hw
  have hresv : reservationOf s (.move w.id d) = some npos := by
    simp [reservationOf, hpos, hnp]
  constructor
  · rw [pushMove]
    dsimp only
    rw [checkMoves_append, hc]
    simp only [checkMoves, Bool.true_and, Bool.and_true]
    simp only [checkMove1]
    rw [hpos]
    dsimp only
    rw [← hnp]
    simp only [Bool.and_eq_true, Bool.not_eq_true', decide_eq_false_iff_not]
    refine ⟨⟨⟨hw1, hw2⟩, hw4⟩, ?_⟩
    intro hmem
    exact hw3 (hr npos hmem)
  · intro c hcm
    rw [pushMove] at hcm ⊢
    dsimp only at hcm ⊢
    rw [resvAfter_append] at hcm
    simp only [resvAfter, resvStep, hresv, List.foldl_cons, List.foldl_nil]
      at hcm
    rcases List.mem_cons.mp hcm with rfl | hcm'
    · exact List.mem_cons_self c ts.reserved
    · exact List.mem_cons_of_mem _ (hr c hcm')

theorem MInv_pushStay (s : GameState) (ts : TS) (w : BotUnit) (a : Action)
    (hmv : ∀ r, checkMove1 s r a = true)
    (hres : reservationOf s a = some ((BotUnit.pos w).tuple) ∨
      reservationOf s a = none)
    (h : MInv s ts) : MInv s (pushStay ts w.id a ((BotUnit.pos w).tuple)) := by
  obtain ⟨hc, hr⟩ := h
  constructor
  · rw [pushStay]
    dsimp only
    rw [checkMoves_append, hc]
    simp [checkMoves, hmv]
  · intro c hcm
    rw [pushStay] at hcm ⊢
    dsimp only at hcm ⊢
    rw [resvAfter_append] at hcm
    rcases hres with hres | hres
    · simp only [resvAfter, resvStep, hres, List.foldl_cons, List.foldl_nil]
        at hcm
      rcases List.mem_cons.mp hcm with rfl | hcm'
      · exact List.mem_cons_self _ _
      · exact List.mem_cons_of_mem _ (hr _ hcm')
    · simp only [resvAfter, resvStep, hres, List.foldl_cons, List.foldl_nil]
        at hcm
      exact List.mem_cons_of_mem _ (hr c hcm)

theorem MInv_pushAction (s : GameState) (ts : TS) (a : Action)
    (hmv : ∀ r, checkMove1 s r a = true)
    (hres : reservationOf s a = none)
    (h : MInv s ts) : MInv s (pushAction ts a) := by
  obtain ⟨hc, hr⟩ := h
  constructor
  · rw [pushAction]
    dsimp only
    rw [checkMoves_append, hc]
    simp [checkMoves, hmv]
  · intro c hcm
    rw [pushAction] at hcm ⊢
    dsimp only at hcm ⊢
    rw [resvAfter_append] at hcm
    simp only [resvAfter, resvStep, hres, List.foldl_cons, List.foldl_nil]
      at hcm
    exact hr c hcm

theorem bestNeighborToward_eq_foldl (s : GameState)
    (buf : List (Coord × Nat)) (reserved : List Coord)
    (wpos target : Position) :
    bestNeighborToward s buf reserved wpos target =
      (wpos.neighbors.foldl (bnF s buf reserved target) none).map
        fun b => (b.1, b.2.1) := rfl

/-- What a greedy-fold candidate guarantees: the tile is passable and
is the step of the scan origin in the returned direction. -/
theorem greedyFold_sound (s : GameState) (buf : List (Coord × Nat))
    (res : List Coord) (start goal : Position)
    (l : List (Position × Dir)) (d : Dir) (c : Coord) :
    ∀ acc : Option (Dir × Coord) × Nat,
      (∀ nd ∈ l, nd.1 = start.step nd.2) →
      (∀ d0 c0, acc.1 = some (d0, c0) →
        isPassable s buf res c0 = true ∧ c0 = (start.step d0).tuple) →
      (l.foldl (greedyF s buf res goal) acc).1 = some (d, c) →
      isPassable s buf res c = true ∧ c = (start.step d).tuple := by
  induction l with
  | nil =>
    intro acc _ hacc hres
    exact hacc d c hres
  | cons x xs ih =>
    intro acc hl hacc hres
    rw [List.foldl_cons] at hres
    refine ih _ (fun nd hnd => hl nd (List.mem_cons_of_mem x hnd)) ?_ hres
    intro d0 c0 hstep
    unfold greedyF at hstep
    split_ifs at hstep with hpass hlt
    · dsimp only at hstep
      injection hstep with hstep
      injection hstep with he1 he2
      have hx := hl x (List.mem_cons_self x xs)
      subst he1
      subst he2
      exact ⟨by rwa [hx] at hpass ⊢, by rw [hx]⟩
    · exact hacc d0 c0 hstep
    · exact hacc d0 c0 hstep

/-- `greedyStep` only returns passable step-consistent candidates. -/
theorem greedyStep_sound (s : GameState) (buf : List (Coord × Nat))
    (res : List Coord) (start goal : Position) (d : Dir) (c : Coord)
    (h : greedyStep s buf res start goal = some (d, c)) :
    isPassable s buf res c = true ∧ c = (start.step d).tuple := by
  rw [greedyStep_eq_foldl] at h
  exact greedyFold_sound s buf res start goal start.neighbors d c
    (none, start.dist goal) (fun nd hnd => neighbors_step hnd)
    (fun d0 c0 hacc => by cases hacc) h

/-- Every candidate kept by the `bestNeighborToward` fold is passable
and one step from the unit. -/
theorem bnFold_sound (s : GameState) (buf : List (Coord × Nat))
    (res : List Coord) (wpos target : Position)
    (l : List (Position × Dir)) (b : Dir × Coord × Nat) :
    ∀ acc : Option (Dir × Coord × Nat),
      (∀ nd ∈ l, nd.1 = wpos.step nd.2) →
      (∀ b0 : Dir × Coord × Nat, acc = some b0 →
        isPassable s buf res b0.2.1 = true ∧
          b0.2.1 = (wpos.step b0.1).tuple) →
      l.foldl (bnF s buf res target) acc = some b →
      isPassable s buf res b.2.1 = true ∧
        b.2.1 = (wpos.step b.1).tuple := by
  induction l with
  | nil =>
    intro acc _ hacc hres
    exact hacc b hres
  | cons x xs ih =>
    intro acc hl hacc hres
    rw [List.foldl_cons] at hres
    refine ih _ (fun nd hnd => hl nd (List.mem_cons_of_mem x hnd)) ?_ hres
    intro b0 hb0
    have hx := hl x (List.mem_cons_self x xs)
    unfold bnF at hb0
    split_ifs at hb0 with hpass
    · rcases hacc2 : acc with _ | b3
      · rw [hacc2] at hb0
        dsimp only at hb0
        injection hb0 with hb0
        subst hb0
        constructor
        · dsimp only
          exact hpass
        · dsimp only
          rw [hx]
      · rw [hacc2] at hb0
        dsimp only at hb0
        split_ifs at hb0 with hlt
        · injection hb0 with hb0
          subst hb0
          constructor
          · dsimp only
            exact hpass
          · dsimp only
            rw [hx]
        · exact hacc b0 (hacc2.trans hb0)
    · exact hacc b0 hb0

/-- `bestNeighborToward` only returns passable step-consistent
candidates. -/
theorem bestNeighborToward_sound (s : GameState) (buf : List (Coord × Nat))
    (res : List Coord) (wpos target : Position) (d : Dir) (c : Coord)
    (h : bestNeighborToward s buf res wpos target = some (d, c)) :
    isPassable s buf res c = true ∧ c = (wpos.step d).tuple := by
  rw [bestNeighborToward_eq_foldl] at h
  rcases hf : wpos.neighbors.foldl (bnF s buf res target) none with _ | b
  · rw [hf] at h
    cases h
  · rw [hf] at h
    simp only [Option.map_some', Option.some.injEq] at h
    have hb := bnFold_sound s buf res wpos target wpos.neighbors b none
      (fun nd hnd => neighbors_step hnd) (fun b0 hb0 => by cases hb0) hf
    injection h with h1 h2
    rw [← h1, ← h2]
    exact hb

/-- Decoding the delta of a cardinal step recovers the direction. -/
theorem decodeDir_step (start : Position) (d : Dir) :
    decodeDir start (start.step d) = d := by
  cases d <;> unfold decodeDir Position.step <;> dsimp only <;>
    split_ifs <;> first | rfl | omega

/-- Any move returned by `get_next_move` targets a passable tile one
step from the unit in the returned direction. -/
theorem get_next_move_sound (s : GameState) (buf : List (Coord × Nat))
    (res : List Coord) (start goal : Position) (d : Dir) (np : Coord)
    (h : get_next_move s buf res start goal = some (d, np)) :
    isPassable s buf res np = true ∧ np = (start.step d).tuple := by
  unfold get_next_move at h
  by_cases h1 : start.dist goal ≤ 1
  · rw [if_pos h1] at h
    cases h
  · rw [if_neg h1] at h
    rcases hg : greedyStep s buf res start goal with _ | mv
    · rw [hg] at h
      dsimp only at h
      rcases hp : find_path s buf res start goal 30 with _ | path
      · rw [hp] at h
        cases h
      · rw [hp] at h
        rcases path with _ | ⟨p0, _ | ⟨next, rest⟩⟩
        · dsimp only at h
          cases h
        · dsimp only at h
          cases h
        · dsimp only at h
          by_cases hpass : isPassable s buf res next.tuple = true
          · rw [if_pos hpass] at h
            injection h with h
            obtain ⟨hhead, -, hchain, -⟩ :=
              find_path_sound s buf res start goal 30 _ hp
            have hp0 : p0 = start := by
              simpa using hhead
            subst hp0
            obtain ⟨d2, hd2⟩ :=
              (List.chain'_cons.mp hchain).1
            rw [hd2] at h
            rw [decodeDir_step] at h
            injection h with hd hnp
            subst hd
            refine ⟨?_, ?_⟩
            · rw [← hnp, ← hd2]
              exact hpass
            · rw [← hnp]
          · rw [if_neg hpass] at h
            cases h
    · rw [hg] at h
      dsimp only at h
      injection h with h
      subst h
      exact greedyStep_sound s buf res start goal d np hg

/-- `MInv` ignores the `tower_sites_placed` component. -/
theorem MInv_placed (s : GameState) (ts : TS) (l : List Coord)
    (h : MInv s ts) : MInv s { ts with towerSitesPlaced := l } := h

theorem MInv_clearSpawnSoldier (s : GameState) (buf : List (Coord × Nat))
    (spawnPos : Position) (hids : (s.myUnits.map BotUnit.id).Nodup)
    (ts : TS) (u : BotUnit) (hu : u ∈ s.myUnits)
    (h : MInv s ts) : MInv s (clearSpawnSoldier s buf spawnPos ts u) := by
  unfold clearSpawnSoldier
  dsimp only
  split
  · rename_i nd heq
    have hmem := List.mem_of_find?_eq_some heq
    have hpred := List.find?_some heq
    simp only [decide_eq_true_eq] at hpred
    exact MInv_pushMove s buf ts hids u hu nd.2 nd.1.tuple
      (by rw [neighbors_step hmem]) hpred.1 h
  · split
    · rename_i nd heq
      have hmem := List.mem_of_find?_eq_some heq
      have hpred := List.find?_some heq
      exact MInv_pushMove s buf ts hids u hu nd.2 nd.1.tuple
        (by rw [neighbors_step hmem]) hpred h
    · exact h

theorem MInv_phase1 (s : GameState) (buf : List (Coord × Nat))
    (primary : Option Structure) (soldiers : List BotUnit) (ts : TS)
    (hids : (s.myUnits.map BotUnit.id).Nodup)
    (hsub : ∀ u ∈ soldiers, u ∈ s.myUnits)
    (h : MInv s ts) : MInv s (phase1 s buf primary soldiers ts) := by
  unfold phase1
  cases primary with
  | none => exact h
  | some psp =>
    apply foldl_preserve _ _ _ h
    intro ts' u hu hP
    exact MInv_clearSpawnSoldier s buf _ hids ts' u
      (hsub u (List.mem_of_mem_filter (mem_sortByKey _ _ _ hu))) hP

theorem MInv_fundSite (s : GameState)
    (hids : (s.myUnits.map BotUnit.id).Nodup) (workers : List BotUnit)
    (hsub : ∀ w ∈ workers, w ∈ s.myUnits) (ts : TS) (site : Structure)
    (h : MInv s ts) : MInv s (fundSite workers ts site) := by
  unfold fundSite
  dsimp only
  split
  · exact h
  · apply foldl_preserve _ _ _ h
    intro ts' w hw hP
    split
    · exact hP
    · split
      · exact hP
      · split
        · refine MInv_pushStay s ts' w _ (fun r => rfl) (Or.inl ?_) hP
          simp [reservationOf, posOfUnit_eq s hids w (hsub w hw)]
        · exact hP

theorem MInv_phase2 (s : GameState)
    (hids : (s.myUnits.map BotUnit.id).Nodup) (workers : List BotUnit)
    (hsub : ∀ w ∈ workers, w ∈ s.myUnits) (sites : List Structure)
    (ts : TS) (h : MInv s ts) : MInv s (phase2 workers sites ts) := by
  unfold phase2
  apply foldl_preserve _ _ _ h
  intro ts' site _ hP
  exact MInv_fundSite s hids workers hsub ts' site hP

theorem MInv_phase3 (s : GameState)
    (hids : (s.myUnits.map BotUnit.id).Nodup) (workers : List BotUnit)
    (hsub : ∀ w ∈ workers, w ∈ s.myUnits) (spawns : List Structure)
    (ts : TS) (h : MInv s ts) : MInv s (phase3 workers spawns ts) := by
  unfold phase3
  split
  · exact h
  · apply foldl_preserve _ _ _ h
    intro ts' w hw hP
    split
    · exact hP
    · split
      · exact hP
      · split
        · exact hP
        · split
          · refine MInv_pushStay s ts' w _ (fun r => rfl) (Or.inl ?_) hP
            simp [reservationOf, posOfUnit_eq s hids w (hsub w hw)]
          · exact hP

theorem MInv_phase4 (s : GameState)
    (hids : (s.myUnits.map BotUnit.id).Nodup) (workers : List BotUnit)
    (hsub : ∀ w ∈ workers, w ∈ s.myUnits) (sources : List Source)
    (ts : TS) (h : MInv s ts) : MInv s (phase4 workers sources ts) := by
  unfold phase4
  apply foldl_preserve _ _ _ h
  intro ts' w hw hP
  split
  · exact hP
  · split
    · exact hP
    · split
      · refine MInv_pushStay s ts' w _ (fun r => rfl) (Or.inl ?_) hP
        simp [reservationOf, posOfUnit_eq s hids w (hsub w hw)]
      · exact hP

theorem MInv_phase5 (s : GameState) (buf : List (Coord × Nat))
    (primary : Option Structure) (workers : List BotUnit)
    (spawns : List Structure) (sources : List Source) (ts : TS)
    (hids : (s.myUnits.map BotUnit.id).Nodup)
    (hsub : ∀ w ∈ workers, w ∈ s.myUnits)
    (h : MInv s ts) :
    MInv s (phase5 s buf primary workers spawns sources ts) := by
  unfold phase5
  split
  · exact h
  · exact h
  · apply foldl_preserve _ _ _ h
    intro ts' w hw hP
    dsimp only
    split
    · exact hP
    · rename_i csrc heq
      split
      · rename_i dc hbn
        have hs2 := bestNeighborToward_sound s buf ts'.reserved w.pos
          ⟨csrc.x, csrc.y⟩ dc.1 dc.2 hbn
        have hwm : w ∈ s.myUnits := by
          have hw2 := List.mem_of_mem_take hw
          cases primary with
          | some psp =>
            exact hsub w (List.mem_of_mem_filter (mem_sortByKey _ _ _ hw2))
          | none => exact hsub w (List.mem_of_mem_filter hw2)
        exact MInv_pushMove s buf ts' hids w hwm dc.1 dc.2 hs2.2 hs2.1 hP
      · exact hP

theorem MInv_phase6 (s : GameState) (buf : List (Coord × Nat))
    (primary : Option Structure) (workers : List BotUnit)
    (sites : List Structure) (ts : TS)
    (hids : (s.myUnits.map BotUnit.id).Nodup)
    (hsub : ∀ w ∈ workers, w ∈ s.myUnits)
    (h : MInv s ts) : MInv s (phase6 s buf primary workers sites ts) := by
  unfold phase6
  split
  · apply foldl_preserve _ _ _ h
    intro ts' w hw hP
    dsimp only
    split
    · exact hP
    · rename_i target heq
      split
      · rename_i dc hbn
        have hs2 := bestNeighborToward_sound s buf ts'.reserved w.pos
          target dc.1 dc.2 hbn
        have hwm : w ∈ s.myUnits := by
          have hw2 := List.mem_of_mem_take hw
          cases primary with
          | some psp =>
            exact hsub w (List.mem_of_mem_filter (mem_sortByKey _ _ _ hw2))
          | none => exact hsub w (List.mem_of_mem_filter hw2)
        exact MInv_pushMove s buf ts' hids w hwm dc.1 dc.2 hs2.2 hs2.1 hP
      · exact hP
  · exact h

theorem MInv_phase7 (s : GameState) (buf : List (Coord × Nat))
    (workers : List BotUnit) (ts : TS)
    (hids : (s.myUnits.map BotUnit.id).Nodup)
    (hsub : ∀ w ∈ workers, w ∈ s.myUnits)
    (h : MInv s ts) : MInv s (phase7 s buf workers ts) := by
  unfold phase7
  apply foldl_preserve _ _ _ h
  intro ts' w hw hP
  split
  · rename_i nd heq
    have hmem := List.mem_of_find?_eq_some heq
    have hpred := List.find?_some heq
    have hwm : w ∈ s.myUnits :=
      hsub w (List.mem_of_mem_filter (List.mem_of_mem_take hw))
    exact MInv_pushMove s buf ts' hids w hwm nd.2 nd.1.tuple
      (by rw [neighbors_step hmem]) hpred hP
  · exact hP

theorem MInv_towerBuilders (s : GameState) (buf : List (Coord × Nat))
    (hids : (s.myUnits.map BotUnit.id).Nodup) :
    ∀ (ws : List BotUnit) (tps : List Coord) (ts : TS),
      (∀ w ∈ ws, w ∈ s.myUnits) → MInv s ts →
      MInv s (towerBuilders s buf ws tps ts) := by
  intro ws
  induction ws with
  | nil =>
    intro tps ts _ h
    exact h
  | cons w ws ih =>
    intro tps ts hsub h
    rw [towerBuilders.eq_def]
    cases tps with
    | nil => exact h
    | cons t0 trest =>
      dsimp only
      split
      · split
        · rename_i d heq
          apply ih _ _ (fun w2 hw2 => hsub w2 (List.mem_cons_of_mem w hw2))
          refine MInv_pushStay s ts w (Action.build w.id d "tower")
            (fun r => rfl) (Or.inl ?_) h
          simp [reservationOf,
            posOfUnit_eq s hids w (hsub w (List.mem_cons_self w ws))]
        · exact ih _ _ (fun w2 hw2 => hsub w2 (List.mem_cons_of_mem w hw2)) h
      · split
        · rename_i dc heq
          have hs2 := get_next_move_sound s buf ts.reserved w.pos _
            dc.1 dc.2 heq
          exact ih _ _ (fun w2 hw2 => hsub w2 (List.mem_cons_of_mem w hw2))
            (MInv_pushMove s buf ts hids w (hsub w (List.mem_cons_self w ws))
              dc.1 dc.2 hs2.2 hs2.1 h)
        · exact ih _ _ (fun w2 hw2 => hsub w2 (List.mem_cons_of_mem w hw2)) h

theorem MInv_phase8 (s : GameState) (buf : List (Coord × Nat))
    (towerCap : Nat) (workers : List BotUnit)
    (spawns towers sites : List Structure) (ts : TS)
    (hids : (s.myUnits.map BotUnit.id).Nodup)
    (hsub : ∀ w ∈ workers, w ∈ s.myUnits)
    (h : MInv s ts) :
    MInv s (phase8 s buf towerCap workers spawns towers sites ts) := by
  unfold phase8
  split
  · exact h
  · split
    · dsimp only
      apply foldl_preserve _ _ _ h
      intro ts' sp _ hP
      split
      · exact hP
      · apply MInv_towerBuilders s buf hids _ _ _ ?_ hP
        intro w2 hw2
        exact hsub w2 (List.mem_of_mem_filter (List.mem_of_mem_take hw2))
    · exact h

theorem MInv_soldierStep (s : GameState) (buf : List (Coord × Nat))
    (spawns : List Structure) (foes : List ChunkUnit)
    (hids : (s.myUnits.map BotUnit.id).Nodup) (ts : TS) (u : BotUnit)
    (hu : u ∈ s.myUnits) (h : MInv s ts) :
    MInv s (soldierStep s buf spawns foes ts u) := by
  unfold soldierStep
  split
  · exact h
  · dsimp only
    split
    · rename_i e heq
      refine MInv_pushStay s ts u (Action.attack u.id e.id)
        (fun r => rfl) (Or.inl ?_) h
      simp [reservationOf, posOfUnit_eq s hids u hu]
    · split
      · rename_i dc heq
        rcases hmin : pythonMin
            (fun (sp : Structure) => u.pos.dist ⟨sp.x, sp.y⟩) spawns
            with _ | csp
        · rw [hmin] at heq
          cases heq
        · rw [hmin] at heq
          dsimp only at heq
          split_ifs at heq with hd
          · obtain ⟨nd, hfind, hdc⟩ := Option.map_eq_some'.mp heq
            have hmem := List.mem_of_find?_eq_some hfind
            have hpred := List.find?_some hfind
            simp only [decide_eq_true_eq] at hpred
            subst hdc
            exact MInv_pushMove s buf ts hids u hu nd.2 nd.1.tuple
              (by rw [neighbors_step hmem]) hpred.1 h
      · split
        · rename_i dc heq
          rcases hmin : pythonMin
              (fun (e : ChunkUnit) => u.pos.dist ⟨e.x, e.y⟩) foes
              with _ | ce
          · rw [hmin] at heq
            cases heq
          · rw [hmin] at heq
            dsimp only at heq
            split_ifs at heq with hd
            · have hs2 := get_next_move_sound s buf ts.reserved u.pos
                ⟨ce.x, ce.y⟩ dc.1 dc.2 heq
              exact MInv_pushMove s buf ts hids u hu dc.1 dc.2
                hs2.2 hs2.1 h
        · split
          · exact h
          · rename_i csp heq
            split
            · split
              · rename_i dc heq2
                have hs2 := get_next_move_sound s buf ts.reserved u.pos
                  ⟨csp.x, csp.y⟩ dc.1 dc.2 heq2
                exact MInv_pushMove s buf ts hids u hu dc.1 dc.2
                  hs2.2 hs2.1 h
              · exact h
            · exact h

theorem MInv_phase9 (s : GameState) (buf : List (Coord × Nat))
    (spawns : List Structure) (soldiers : List BotUnit) (ts : TS)
    (hids : (s.myUnits.map BotUnit.id).Nodup)
    (hsub : ∀ u ∈ soldiers, u ∈ s.myUnits)
    (h : MInv s ts) : MInv s (phase9 s buf spawns soldiers ts) := by
  unfold phase9
  apply foldl_preserve _ _ _ h
  intro ts' u hu hP
  exact MInv_soldierStep s buf spawns s.enemies hids ts' u (hsub u hu) hP

/-- Everything the spawning decision chain emits is a `spawn` action. -/
theorem spawnDecision_shape (strategy : Strategy) (numW numS : Nat)
    (sp : Structure) :
    ∀ a ∈ spawnDecision strategy numW numS sp,
      ∃ ut, a = Action.spawnUnit sp.id ut := by
  intro a ha
  unfold spawnDecision at ha
  rcases mem_of_mem_ite ha with ha | ha
  · rcases mem_of_mem_ite ha with ha | ha
    · exact ⟨"worker", List.mem_singleton.mp ha⟩
    · rcases mem_of_mem_ite ha with ha | ha
      · exact ⟨"soldier", List.mem_singleton.mp ha⟩
      · cases ha
  · rcases mem_of_mem_ite ha with ha | ha
    · rcases mem_of_mem_ite ha with ha | ha
      · exact ⟨"soldier", List.mem_singleton.mp ha⟩
      · rcases mem_of_mem_ite ha with ha | ha
        · exact ⟨"worker", List.mem_singleton.mp ha⟩
        · cases ha
    · rcases mem_of_mem_ite ha with ha | ha
      · rcases mem_of_mem_ite ha with ha | ha
        · exact ⟨"soldier", List.mem_singleton.mp ha⟩
        · rcases mem_of_mem_ite ha with ha | ha
          · exact ⟨"worker", List.mem_singleton.mp ha⟩
          · cases ha
      · rcases mem_of_mem_ite ha with ha | ha
        · exact ⟨"worker", List.mem_singleton.mp ha⟩
        · rcases mem_of_mem_ite ha with ha | ha
          · exact ⟨"soldier", List.mem_singleton.mp ha⟩
          · cases ha

theorem MInv_phase10 (s : GameState) (strategy : Strategy)
    (numW numS : Nat) (spawns : List Structure) (ts : TS)
    (h : MInv s ts) : MInv s (phase10 s strategy numW numS spawns ts) := by
  unfold phase10
  apply foldl_preserve _ _ _ h
  intro ts' sp _ hP
  split
  · apply foldl_preserve _ _ _ hP
    intro ts'' a ha hP'
    obtain ⟨ut, rfl⟩ := spawnDecision_shape strategy numW numS sp a ha
    exact MInv_pushAction s ts'' _ (fun r => rfl) rfl hP'
  · exact hP


/-- C2: for every `move` action of a tick's batch, the destination tile
(the unit's snapshot position shifted one step in the move's direction)
is not a wall, not a structure position, not occupied by any own or
enemy unit of the snapshot, and not among the tiles reserved by the
actions emitted earlier in the same tick. -/
theorem c2_move_destinations_ok (s : GameState) (strategy : Strategy)
    (buf : List (Coord × Nat)) (placed0 : List Coord)
    (hids : (s.myUnits.map BotUnit.id).Nodup) :
    checkMoves s (think s strategy buf placed0).actions [] = true := by
  have hW : ∀ w ∈ s.getWorkers, w ∈ s.myUnits :=
    fun w hw => getWorkers_sub s w hw
  have hS : ∀ u ∈ s.getSoldiers, u ∈ s.myUnits :=
    fun u hu => getSoldiers_sub s u hu
  have h0 : MInv s ⟨[], [], [], placed0⟩ :=
    ⟨rfl, fun c hc => absurd hc (List.not_mem_nil c)⟩
  have hfin : MInv s (think s strategy buf placed0) := by
    unfold think
    apply MInv_phase10
    apply MInv_phase9 _ _ _ _ _ hids hS
    apply MInv_phase8 _ _ _ _ _ _ _ _ hids hW
    apply MInv_phase7 _ _ _ _ hids hW
    apply MInv_phase6 _ _ _ _ _ _ hids hW
    apply MInv_phase5 _ _ _ _ _ _ _ hids hW
    apply MInv_phase4 _ hids _ hW
    apply MInv_phase3 _ hids _ hW
    apply MInv_phase2 _ hids _ hW
    apply MInv_phase1 _ _ _ _ _ hids hS
    exact h0
  exact hfin.1

/-- C2 witness: on `c2raw` the batch holds a real move and every move
destination passes the claim's checks. -/
theorem c2_witness :
    ((GameState.parse c2raw).myUnits.map BotUnit.id).Nodup ∧
      checkMoves (GameState.parse c2raw)
        (think (GameState.parse c2raw) DEFAULT_STRATEGY [] []).actions
        [] = true :=
  ⟨by decide, c2_move_destinations_ok (GameState.parse c2raw)
    DEFAULT_STRATEGY [] [] (by decide)⟩

end MoltKing
